import Mathlib

/-!
Shallow embedding of the reconciliation core of the `jobs-manager-operator`
repository (a Kubernetes workflow operator written in Go), together with
theorems settling the specification claims about it.

The Go sources embedded here are:
* `api/v1beta1/managedjob_types.go` — the domain model,
* `controllers/crd_calc.go` — `compileParameters`, `updateDependentJobs`,
  `updateDependentGroups`, `checkRunningJobsStatus`, `runPendingJobs`,
  `executeJob` (with its inner `convertRetries`), `checkOverallStatus`,
* `controllers/crd_dependency_tree.go` — `checkIfPresentInDependencies`,
  `generateDependencyTree`,
* `controllers/managedjob_controller.go` — `handleDeletion`, `deleteChildJobs`,
* `controllers/definitions.go` / `helpers.go` — status constants,
  `jobNameGenerator`.

Modelling conventions: Go strings are Lean `String`s; Go slices are `List`s
(a `nil` slice and an empty slice collapse to `[]`, which is observation
equivalent for every embedded function: the `!= nil` guards in the source
only guard appends of the slice's own elements); Go maps used with
copy-on-assign semantics (`Labels`/`Annotations`) are modelled as
`Option (List (String × String))` so that a `nil` map is distinguished from a
non-nil one, which matters for the replace-on-non-nil merge policy; pointers
to structs (`Resources`, `BackoffLimit`) are `Option`s; `pandati.IsZero` on a
parameter struct is equality with the all-zero struct.  Cluster I/O is made
explicit: the Kubernetes client's list/create/delete results are passed in as
oracles (`Option`/`Except` values and functions), and in-place pointer
mutation of the workflow object is explicit state threading.  Events, logs
and metrics are not modelled; no claim is about them.
-/

namespace JobsManager

/-! ### String helpers

`strings.ToLower`, `strings.Join` and `strings.Contains` from the Go standard
library, restricted to the ASCII range (resource names validated by the CRD
schema match `[a-z0-9-]+`, so ASCII lowering is exact on every input the
operator handles). -/

/-- ASCII `unicode.ToLower` on a single character. -/
def lowerChar (c : Char) : Char :=
  if c.toNat ≥ 65 ∧ c.toNat ≤ 90 then Char.ofNat (c.toNat + 32) else c

/-- `strings.ToLower` (ASCII fragment). -/
def lowerString (s : String) : String :=
  ⟨s.toList.map lowerChar⟩

/-- Helper for `strContains`: does `sub` occur at the head of the list? -/
def startsWithList : List Char → List Char → Bool
  | _, [] => true
  | [], _ :: _ => false
  | c :: cs, d :: ds => c = d && startsWithList cs ds

/-- Helper for `strContains`: does `sub` occur anywhere in the list? -/
def containsSubList : List Char → List Char → Bool
  | [], sub => sub.isEmpty
  | c :: cs, sub => startsWithList (c :: cs) sub || containsSubList cs sub

/-- `strings.Contains s sub` (case-sensitive substring test). -/
def strContains (s sub : String) : Bool :=
  containsSubList s.toList sub.toList

/-! ### Status constants (`controllers/definitions.go`) -/

def ExecutionStatusPending : String := "pending"

def ExecutionStatusRunning : String := "running"

def ExecutionStatusSucceeded : String := "succeeded"

def ExecutionStatusFailed : String := "failed"

def ExecutionStatusAborted : String := "aborted"

/-! ### Domain model (`api/v1beta1/managedjob_types.go`) -/

/-- `corev1.EnvVar` (the fragment the operator reads: name/value pairs). -/
structure EnvVar where
  name : String
  value : String
deriving DecidableEq, Inhabited

/-- `ManagedJobParameters`.  Fields whose payloads the operator never inspects
(`FromEnv` sources, volumes, mounts, pull secrets, resource requirements) are
modelled as opaque `String` tokens; the merge logic only concatenates or
replaces them wholesale.  `labels`/`annots` model the Go maps
`Labels`/`Annotations` (`none` = `nil` map). -/
structure ManagedJobParameters where
  fromEnv : List String
  env : List EnvVar
  volumes : List String
  volumeMounts : List String
  serviceAccount : String
  restartPolicy : String
  imagePullSecrets : List String
  imagePullPolicy : String
  labels : Option (List (String × String))
  annots : Option (List (String × String))
  resources : Option String
deriving DecidableEq, Inhabited

/-- The zero value of `ManagedJobParameters`;
`pandati.IsZero params` is `params = emptyParams`. -/
def emptyParams : ManagedJobParameters :=
  ⟨[], [], [], [], "", "", [], "", none, none, none⟩

/-- `ManagedJobDependencies`: a named reference with a locally observed status. -/
structure ManagedJobDependencies where
  name : String
  status : String
deriving DecidableEq, Inhabited

/-- `ManagedJobDefinition`: a single job inside a group. -/
structure ManagedJobDefinition where
  name : String
  parallel : Bool
  image : String
  args : List String
  params : ManagedJobParameters
  status : String
  dependencies : List ManagedJobDependencies
  compiledParams : ManagedJobParameters
deriving DecidableEq, Inhabited

/-- `ManagedJobGroup`: a named group of jobs. -/
structure ManagedJobGroup where
  name : String
  parallel : Bool
  jobs : List ManagedJobDefinition
  params : ManagedJobParameters
  dependencies : List ManagedJobDependencies
  status : String
deriving DecidableEq, Inhabited

/-- `ManagedJob`: the workflow object (metadata name + spec + status).
`retries` is `Spec.Retries` (a Go `int`), `status` the top-level status. -/
structure ManagedJob where
  name : String
  retries : Int
  params : ManagedJobParameters
  groups : List ManagedJobGroup
  status : String
deriving DecidableEq, Inhabited

/-! ### Parameter compiler (`compileParameters`, crd_calc.go lines 15–61) -/

/-- One iteration of the `for _, params := range params` loop in
`compileParameters`: merge the layer `p` into the accumulator `cparams`.
The `params.X != nil` guards on slice fields only guard appends and are
dropped (appending an empty list is the identity); the guards on the string
fields and on the map/pointer fields are kept because they select
last-non-empty / last-non-nil semantics.  A non-nil `Labels`/`Annotations`
map is copied key by key into a fresh map, i.e. it replaces the accumulated
map by its own content. -/
def mergeParams (cparams p : ManagedJobParameters) : ManagedJobParameters :=
  if p = emptyParams then cparams
  else
    { fromEnv := cparams.fromEnv ++ p.fromEnv
      env := cparams.env ++ p.env
      volumes := cparams.volumes ++ p.volumes
      volumeMounts := cparams.volumeMounts ++ p.volumeMounts
      serviceAccount := if p.serviceAccount ≠ "" then p.serviceAccount else cparams.serviceAccount
      restartPolicy := if p.restartPolicy ≠ "" then p.restartPolicy else cparams.restartPolicy
      imagePullSecrets := cparams.imagePullSecrets ++ p.imagePullSecrets
      imagePullPolicy := if p.imagePullPolicy ≠ "" then p.imagePullPolicy else cparams.imagePullPolicy
      labels := match p.labels with
        | some m => some m
        | none => cparams.labels
      annots := match p.annots with
        | some m => some m
        | none => cparams.annots
      resources := match p.resources with
        | some r => some r
        | none => cparams.resources }

/-- `compileParameters(params ...)`: fold the layers left to right into a
zero-valued accumulator. -/
def compileParameters (params : List ManagedJobParameters) : ManagedJobParameters :=
  params.foldl mergeParams emptyParams

/-! ### Child-job naming (`jobNameGenerator`, helpers) -/

/-- `jobNameGenerator(name...)`: join with `"-"` and lowercase. -/
def jobNameGenerator (parts : List String) : String :=
  lowerString (String.intercalate "-" parts)

/-! ### Dependency planner (`crd_dependency_tree.go` lines 104–163) -/

/-- `checkIfPresentInDependencies`: is a dependency with this name present? -/
def checkIfPresentInDependencies (currentDependencies : List ManagedJobDependencies)
    (dependencyName : String) : Bool :=
  currentDependencies.any (fun d => d.name == dependencyName)

/-- One `if !cp.checkIfPresentInDependencies … { append }` step of the
planner's loops: add a pending dependency named `n` unless already present. -/
def addDependencyIfAbsent (deps : List ManagedJobDependencies) (n : String) :
    List ManagedJobDependencies :=
  if checkIfPresentInDependencies deps n then deps
  else deps ++ [⟨n, ExecutionStatusPending⟩]

/-- The planner's inner loop over the prior tree items: append a pending
dependency for each name in `ns`, skipping names already present. -/
def addDependencies (deps : List ManagedJobDependencies) (ns : List String) :
    List ManagedJobDependencies :=
  ns.foldl addDependencyIfAbsent deps

/-- The prefix of `l` strictly before the first occurrence of `stopName`:
this is how `generateDependencyTree` walks `groupTree.Items()` /
`mainTree.Items()` and `break`s at the current node's own text. -/
def takeWhileNe (stopName : String) (l : List String) : List String :=
  l.takeWhile (fun y => y != stopName)

/-- The body of the planner's job loop.  Every job first gets
`CompiledParams = compileParameters(spec.Params, group.Params, job.Params)`
(in exactly that argument order, line 122 of crd_dependency_tree.go); a
parallel job is left otherwise untouched; a sequential job additionally gains
a pending dependency on the synthesised child name of every prior sibling,
skipping names already present. -/
def planJob (wfName gName : String) (wfParams gParams : ManagedJobParameters)
    (priorJobNames : List String) (j : ManagedJobDefinition) : ManagedJobDefinition :=
  let j1 := { j with compiledParams := compileParameters [wfParams, gParams, j.params] }
  if j1.parallel then j1
  else
    let implicitNames := priorJobNames.map (fun p => jobNameGenerator [wfName, gName, p])
    { j1 with dependencies := addDependencies j1.dependencies implicitNames }

/-- The planner's walk over a group's jobs.  When job `i` is processed the
group tree holds the names of jobs `0..i`; the loop over the tree `break`s at
the first item equal to the job's own name, hence the prior-name list is
`takeWhileNe` of the job's name over the names of jobs `0..i`. -/
def planJobs (wfName gName : String) (wfParams gParams : ManagedJobParameters)
    (jobs : List ManagedJobDefinition) : List ManagedJobDefinition :=
  (List.range jobs.length).map (fun i =>
    let j := jobs.getD i default
    planJob wfName gName wfParams gParams
      (takeWhileNe j.name ((jobs.take (i + 1)).map (fun q => q.name))) j)

/-- The body of the planner's group loop: plan the jobs, then (for a
sequential group) gain a pending dependency on every prior group name,
skipping names already present. -/
def planGroup (wfName : String) (wfParams : ManagedJobParameters)
    (priorGroupNames : List String) (g : ManagedJobGroup) : ManagedJobGroup :=
  let g1 := { g with jobs := planJobs wfName g.name wfParams g.params g.jobs }
  if g1.parallel then g1
  else { g1 with dependencies := addDependencies g1.dependencies priorGroupNames }

/-- The planner's walk over the workflow's groups, mirroring `planJobs` at
group level (the main tree holds the names of groups `0..i`). -/
def planGroups (wfName : String) (wfParams : ManagedJobParameters)
    (groups : List ManagedJobGroup) : List ManagedJobGroup :=
  (List.range groups.length).map (fun i =>
    let g := groups.getD i default
    planGroup wfName wfParams
      (takeWhileNe g.name ((groups.take (i + 1)).map (fun q => q.name))) g)

/-- `generateDependencyTree` (crd_dependency_tree.go lines 113–163).  The
ASCII tree built alongside is only printed, and the trailing persistence call
does not change the in-memory object; both are dropped. -/
def generateDependencyTree (mj : ManagedJob) : ManagedJob :=
  { mj with groups := planGroups mj.name mj.params mj.groups }

/-! ### Access helpers

The Go code mutates the workflow through pointers into `cp.mj`; the embedding
threads the whole `ManagedJob` value and addresses groups and jobs by their
position.  Out-of-range accesses return `default` (whose status is `""`,
never a real status). -/

def groupAt (mj : ManagedJob) (gi : Nat) : ManagedJobGroup :=
  mj.groups.getD gi default

def jobAt (mj : ManagedJob) (gi ji : Nat) : ManagedJobDefinition :=
  (groupAt mj gi).jobs.getD ji default

def groupStatus (mj : ManagedJob) (gi : Nat) : String :=
  (groupAt mj gi).status

def jobStatus (mj : ManagedJob) (gi ji : Nat) : String :=
  (jobAt mj gi ji).status

/-- `group.Status = st` through the group pointer. -/
def setGroupStatus (mj : ManagedJob) (gi : Nat) (st : String) : ManagedJob :=
  { mj with groups := mj.groups.set gi { groupAt mj gi with status := st } }

/-- `job.Status = st` through the job pointer. -/
def setJobStatus (mj : ManagedJob) (gi ji : Nat) (st : String) : ManagedJob :=
  let g := groupAt mj gi
  { mj with groups :=
      mj.groups.set gi { g with jobs := g.jobs.set ji { jobAt mj gi ji with status := st } } }

/-! ### Fan-out updates (`updateDependentJobs`/`updateDependentGroups`,
crd_calc.go lines 63–85, and `buildDependencyMaps`, helpers.go lines 35–51)

`buildDependencyMaps` indexes, for every dependency entry anywhere in the
workflow, the entry under the name it references; `updateDependentJobs`
(resp. `…Groups`) then rewrites the status of every job-level (resp.
group-level) dependency entry whose `Name` equals the completed name.  The
map is built once per reconcile after planning and no entry is added or
removed afterwards, so the map lookup is extensionally a full scan. -/

/-- One dependency entry under `updateDependent*`: rewrite the status when the
name matches (the `dep.Status != st` guard only skips a no-op write). -/
def updateDepEntry (completedName st : String) (d : ManagedJobDependencies) :
    ManagedJobDependencies :=
  if d.name == completedName && d.status != st then { d with status := st } else d

/-- `updateDependentJobs(completedJob, st)`. -/
def updateDependentJobs (mj : ManagedJob) (completedJob st : String) : ManagedJob :=
  { mj with groups := mj.groups.map (fun g =>
      { g with jobs := g.jobs.map (fun j =>
          { j with dependencies := j.dependencies.map (updateDepEntry completedJob st) }) }) }

/-- `updateDependentGroups(completedGroup, st)`. -/
def updateDependentGroups (mj : ManagedJob) (completedGroup st : String) : ManagedJob :=
  { mj with groups := mj.groups.map (fun g =>
      { g with dependencies := g.dependencies.map (updateDepEntry completedGroup st) }) }

/-! ### Observation projector (`checkRunningJobsStatus`, crd_calc.go 87–127) -/

/-- An observed child `kbatch.Job`: its name and the three status counters the
projector reads. -/
structure ChildJob where
  name : String
  active : Nat
  succeeded : Nat
  failed : Nat
deriving DecidableEq, Inhabited

/-- The body of the projector's innermost loop for one `(childJob, group, job)`
triple: on a name match, run the `else if` chain over the child's counters,
write the job status, and fan the (possibly unchanged) status out to the
dependency entries referencing the generated name. -/
def projectChildOnJob (c : ChildJob) (mj : ManagedJob) (gi ji : Nat) : ManagedJob :=
  let g := groupAt mj gi
  let j := jobAt mj gi ji
  let generatedJobName := jobNameGenerator [mj.name, g.name, j.name]
  if c.name = generatedJobName then
    let newStatus :=
      if c.succeeded > 0 ∧ j.status ≠ ExecutionStatusSucceeded then ExecutionStatusSucceeded
      else if c.failed > 0 ∧ j.status ≠ ExecutionStatusFailed then ExecutionStatusFailed
      else if c.active > 0 ∧ j.status ≠ ExecutionStatusRunning then ExecutionStatusRunning
      else j.status
    updateDependentJobs (setJobStatus mj gi ji newStatus) generatedJobName newStatus
  else mj

/-- The projector's scan of every `(group, job)` pair for one child job
(the `continue` in the source only moves to the next pair). -/
def projectChild (mj : ManagedJob) (c : ChildJob) : ManagedJob :=
  (List.range mj.groups.length).foldl (fun m gi =>
    (List.range (groupAt m gi).jobs.length).foldl
      (fun m2 ji => projectChildOnJob c m2 gi ji) m) mj

/-- `checkRunningJobsStatus`.  `listRes` is the result of the label-filtered
`List` call: `none` models a list error, upon which the projector returns
with the workflow untouched.  The active-job gauge is not modelled. -/
def checkRunningJobsStatus (listRes : Option (List ChildJob)) (mj : ManagedJob) : ManagedJob :=
  match listRes with
  | none => mj
  | some childJobs => childJobs.foldl projectChild mj

/-! ### Scheduler (`runPendingJobs`, crd_calc.go lines 129–224)

The `cp.executeJob` call is abstracted by the oracle
`createErr : String → Option String`, giving for each generated child name
the error returned by the cluster `Create` (with `none` for success) — the
only thing `runPendingJobs` reads from it.  The state records the
successfully created children (position and generated name, in creation
order) and, when the `return` statement fires after a create error, the
position of the erroring job and the error message. -/

structure SchedState where
  mj : ManagedJob
  created : List (Nat × Nat × String)
  stopped : Option (Nat × Nat × String)
deriving DecidableEq, Inhabited

/-- One iteration of the `for _, jobDep := range job.Dependencies` loop:
count a succeeded dependency; on a failed dependency set the job to aborted
and fan out `failed` under the job's bare name. -/
def jobDepStep (gi ji : Nat) (acc : ManagedJob × Nat) (di : Nat) : ManagedJob × Nat :=
  let j := jobAt acc.1 gi ji
  let d := j.dependencies.getD di default
  let cnt := if d.status = ExecutionStatusSucceeded then acc.2 + 1 else acc.2
  let mj :=
    if d.status = ExecutionStatusFailed then
      updateDependentJobs (setJobStatus acc.1 gi ji ExecutionStatusAborted) j.name
        ExecutionStatusFailed
    else acc.1
  (mj, cnt)

/-- The whole job-dependency loop, threading the workflow because the fan-out
can rewrite dependency entries that later iterations read. -/
def jobDepLoop (gi ji : Nat) (mj : ManagedJob) : ManagedJob × Nat :=
  (List.range (jobAt mj gi ji).dependencies.length).foldl (jobDepStep gi ji) (mj, 0)

/-- One iteration of the scheduler's job loop for job `(gi, ji)` (skipped
wholesale once the scheduler has returned).  Mirrors the source: only pending
jobs are considered; `runJob` requires every dependency counted succeeded
(vacuously when there are no dependencies); the redundant status re-check
before `executeJob` is kept (it re-reads the job after the dependency loop);
a create error whose message does not contain `"exists"` marks job and group
failed with fan-out (in source order: job status, group status, job fan-out,
group fan-out), and any create error makes the scheduler return. -/
def runJobStep (createErr : String → Option String) (s : SchedState) (gi ji : Nat) :
    SchedState :=
  if s.stopped.isSome then s
  else if (jobAt s.mj gi ji).status = ExecutionStatusPending then
    if (if (jobAt s.mj gi ji).dependencies.length > 0 then
          (jobDepLoop gi ji s.mj).2 = (jobAt s.mj gi ji).dependencies.length
        else True) then
      if (jobAt (jobDepLoop gi ji s.mj).1 gi ji).status = ExecutionStatusRunning ∨
          (jobAt (jobDepLoop gi ji s.mj).1 gi ji).status = ExecutionStatusFailed ∨
          (jobAt (jobDepLoop gi ji s.mj).1 gi ji).status = ExecutionStatusAborted then
        { mj := (jobDepLoop gi ji s.mj).1, created := s.created, stopped := s.stopped }
      else
        match createErr (jobNameGenerator
            [s.mj.name, (groupAt s.mj gi).name, (jobAt s.mj gi ji).name]) with
        | some msg =>
          if strContains msg "exists" then
            { mj := (jobDepLoop gi ji s.mj).1, created := s.created,
              stopped := some (gi, ji, msg) }
          else
            { mj := updateDependentGroups (updateDependentJobs (setGroupStatus
                  (setJobStatus (jobDepLoop gi ji s.mj).1 gi ji ExecutionStatusFailed) gi
                  ExecutionStatusFailed) (jobAt s.mj gi ji).name ExecutionStatusFailed)
                (groupAt s.mj gi).name ExecutionStatusFailed,
              created := s.created, stopped := some (gi, ji, msg) }
        | none =>
          { mj := updateDependentJobs (setJobStatus (jobDepLoop gi ji s.mj).1 gi ji
                ExecutionStatusRunning) (jobAt s.mj gi ji).name ExecutionStatusRunning,
            created := s.created ++ [(gi, ji, jobNameGenerator
              [s.mj.name, (groupAt s.mj gi).name, (jobAt s.mj gi ji).name])],
            stopped := none }
    else { mj := (jobDepLoop gi ji s.mj).1, created := s.created, stopped := s.stopped }
  else s

/-- The scheduler's job loop over jobs `ji, ji+1, …` (`n` iterations). -/
def runJobsAux (createErr : String → Option String) (gi : Nat) :
    Nat → Nat → SchedState → SchedState
  | 0, _, s => s
  | n + 1, ji, s => runJobsAux createErr gi n (ji + 1) (runJobStep createErr s gi ji)

/-- One iteration of the `for _, groupDep := range group.Dependencies` loop,
mirroring `jobDepStep` at group level (on a failed dependency the group is
set to aborted and `failed` is fanned out under the group's name). -/
def groupDepStep (gi : Nat) (acc : ManagedJob × Nat) (di : Nat) : ManagedJob × Nat :=
  let g := groupAt acc.1 gi
  let d := g.dependencies.getD di default
  let cnt := if d.status = ExecutionStatusSucceeded then acc.2 + 1 else acc.2
  let mj :=
    if d.status = ExecutionStatusFailed then
      updateDependentGroups (setGroupStatus acc.1 gi ExecutionStatusAborted) g.name
        ExecutionStatusFailed
    else acc.1
  (mj, cnt)

/-- The whole group-dependency loop. -/
def groupDepLoop (gi : Nat) (mj : ManagedJob) : ManagedJob × Nat :=
  (List.range (groupAt mj gi).dependencies.length).foldl (groupDepStep gi) (mj, 0)

/-- The fan-out the scheduler's group loop performs when the group's status
is already terminal (`if pandati.ExistsInSlice(approvedStatuses, group.Status)
{ cp.updateDependentGroups(...) }`, which falls through without `continue`). -/
def terminalFanOut (m : ManagedJob) (gi : Nat) : ManagedJob :=
  if (groupAt m gi).status = ExecutionStatusSucceeded ∨
      (groupAt m gi).status = ExecutionStatusFailed ∨
      (groupAt m gi).status = ExecutionStatusAborted then
    updateDependentGroups m (groupAt m gi).name (groupAt m gi).status
  else m

/-- One iteration of the scheduler's group loop for group `gi`: the
all-jobs-succeeded promotion with fan-out and `continue`; the fan-out for a
terminal group status (`terminalFanOut`, a no-op for a pending/running
group); and, for a pending/running group, the eligibility check followed by
setting the group running and entering the job loop over its jobs. -/
def runGroupStep (createErr : String → Option String) (s : SchedState) (gi : Nat) :
    SchedState :=
  if s.stopped.isSome then s
  else if (groupAt s.mj gi).jobs.countP (fun j => j.status == ExecutionStatusSucceeded) =
      (groupAt s.mj gi).jobs.length then
    { mj := updateDependentGroups (setGroupStatus s.mj gi ExecutionStatusSucceeded)
        (groupAt s.mj gi).name ExecutionStatusSucceeded,
      created := s.created, stopped := s.stopped }
  else if (groupAt s.mj gi).status = ExecutionStatusPending ∨
      (groupAt s.mj gi).status = ExecutionStatusRunning then
    if (if (groupAt s.mj gi).dependencies.length > 0 then
          (groupDepLoop gi (terminalFanOut s.mj gi)).2 = (groupAt s.mj gi).dependencies.length
        else True) then
      runJobsAux createErr gi
        (groupAt (updateDependentGroups
          (setGroupStatus (groupDepLoop gi (terminalFanOut s.mj gi)).1 gi
            ExecutionStatusRunning)
          (groupAt s.mj gi).name ExecutionStatusRunning) gi).jobs.length 0
        { mj := updateDependentGroups
            (setGroupStatus (groupDepLoop gi (terminalFanOut s.mj gi)).1 gi
              ExecutionStatusRunning)
            (groupAt s.mj gi).name ExecutionStatusRunning,
          created := s.created, stopped := none }
    else { mj := (groupDepLoop gi (terminalFanOut s.mj gi)).1, created := s.created,
           stopped := s.stopped }
  else { mj := terminalFanOut s.mj gi, created := s.created, stopped := s.stopped }

/-- The scheduler's group loop over groups `gi, gi+1, …` (`n` iterations). -/
def runGroupsAux (createErr : String → Option String) :
    Nat → Nat → SchedState → SchedState
  | 0, _, s => s
  | n + 1, gi, s => runGroupsAux createErr n (gi + 1) (runGroupStep createErr s gi)

/-- `runPendingJobs`, over all groups in declaration order. -/
def runPendingJobs (createErr : String → Option String) (mj : ManagedJob) : SchedState :=
  runGroupsAux createErr mj.groups.length 0 { mj := mj, created := [], stopped := none }

/-! ### External execution construction (`executeJob` / `convertRetries`,
crd_calc.go lines 226–310) -/

/-- The `convertRetries` closure inside `executeJob`: `0` emits no backoff
limit; values outside `[0, 100]` are clamped to `1`; otherwise the value is
passed through. -/
def convertRetries (retries : Int) : Option Int :=
  if retries = 0 then none
  else if retries < 0 ∨ retries > 100 then some 1
  else some retries

/-- `getImagePullPolicy` (helpers.go): default to `IfNotPresent`. -/
def getImagePullPolicy (policy : String) : String :=
  if policy = "" then "IfNotPresent" else policy

/-- The fields of the `kbatch.Job` manifest built by `executeJob` that the
claims are about (metadata/owner reference, volumes, mounts, pull secrets and
resources are carried by the same construction but inspected by no claim).
In the label map, later assoc-list entries override earlier ones. -/
structure K8sJob where
  name : String
  labels : List (String × String)
  image : String
  args : List String
  env : List EnvVar
  fromEnv : List String
  backoffLimit : Option Int
  imagePullPolicy : String
  restartPolicy : String
deriving DecidableEq, Inhabited

/-- The `kbatch.Job` literal inside `executeJob`: generated name, the four
identifying labels merged with the compiled labels, the container spec built
from the job and its compiled parameters, and
`BackoffLimit = convertRetries(spec.Retries)`. -/
def executeJobManifest (mj : ManagedJob) (g : ManagedJobGroup) (j : ManagedJobDefinition) :
    K8sJob :=
  let generatedJobName := jobNameGenerator [mj.name, g.name, j.name]
  { name := generatedJobName
    labels := [("jobmanager.raczylo.com/workflow-name", mj.name),
               ("jobmanager.raczylo.com/group-name", g.name),
               ("jobmanager.raczylo.com/job-name", generatedJobName),
               ("jobmanager.raczylo.com/job-id", j.name)] ++ j.compiledParams.labels.getD []
    image := j.image
    args := j.args
    env := j.compiledParams.env
    fromEnv := j.compiledParams.fromEnv
    backoffLimit := convertRetries mj.retries
    imagePullPolicy := getImagePullPolicy j.compiledParams.imagePullPolicy
    restartPolicy := j.compiledParams.restartPolicy }

/-! ### Overall-status aggregator (`checkOverallStatus`, crd_calc.go 312–337) -/

/-- The body of the loop in `checkOverallStatus`: count a succeeded group;
on a failed or aborted group assign `mj.Status = failed` (kept in the
accumulator's second component); otherwise `continue`. -/
def overallStep (acc : Nat × String) (g : ManagedJobGroup) : Nat × String :=
  if g.status = ExecutionStatusSucceeded then (acc.1 + 1, acc.2)
  else if g.status = ExecutionStatusFailed ∨ g.status = ExecutionStatusAborted then
    (acc.1, ExecutionStatusFailed)
  else acc

/-- `checkOverallStatus`.  The loop counts succeeded groups and, on a failed
or aborted group, assigns `mj.Status = failed`; after the loop the final
`if`/`else` assigns `succeeded` or `running` unconditionally, so the `failed`
assignment never survives the pass (the loop's status writes are kept in the
fold's accumulator to mirror the source, but both final branches overwrite
them).  The trailing status subresource update only persists. -/
def checkOverallStatus (mj : ManagedJob) : ManagedJob :=
  let r := mj.groups.foldl overallStep (0, mj.status)
  if r.1 = mj.groups.length then { mj with status := ExecutionStatusSucceeded }
  else { mj with status := ExecutionStatusRunning }

/-! ### Deletion and finalizer handling (`handleDeletion` / `deleteChildJobs`,
managedjob_controller.go lines 121–171)

Cluster I/O is abstracted by: `listRes`, the result of listing the labelled
child jobs (`Except.error` = list failure); `deleteErr`, the per-child result
of `Delete` (`none` = success); `updateErr`, the result of the `Update` call
persisting the finalizer removal. -/

/-- The outcome of one `handleDeletion` reconcile: whether the finalizer
removal was persisted, the error surfaced to the harness, and the children
for which a delete call was issued. -/
structure DeletionResult where
  finalizerRemoved : Bool
  err : Option String
  deleteAttempts : List String
deriving DecidableEq, Inhabited

/-- `deleteChildJobs`: a list failure is returned as an error; otherwise every
listed child gets a delete call whose error is logged and dropped
(`// Continue trying to delete other jobs`), and the function returns `nil`.
The payload records each attempted child with its delete outcome. -/
def deleteChildJobs (listRes : Except String (List String))
    (deleteErr : String → Option String) : Except String (List (String × Option String)) :=
  match listRes with
  | .error e => .error e
  | .ok children => .ok (children.map (fun c => (c, deleteErr c)))

/-- `handleDeletion`: without the finalizer there is nothing to do; a
`deleteChildJobs` error is surfaced and the finalizer kept; otherwise the
finalizer is removed and persisted (a failing `Update` keeps the finalizer on
the persisted object and surfaces the error). -/
def handleDeletion (finalizerPresent : Bool) (listRes : Except String (List String))
    (deleteErr : String → Option String) (updateErr : Option String) : DeletionResult :=
  if finalizerPresent then
    match deleteChildJobs listRes deleteErr with
    | .error e => ⟨false, some e, []⟩
    | .ok attempts =>
      match updateErr with
      | some e => ⟨false, some e, attempts.map Prod.fst⟩
      | none => ⟨true, none, attempts.map Prod.fst⟩
  else ⟨false, none, []⟩

/-! ### Status predicates -/

/-- A terminal status: `succeeded`, `failed` or `aborted`. -/
def TerminalStatus (s : String) : Prop :=
  s = ExecutionStatusSucceeded ∨ s = ExecutionStatusFailed ∨ s = ExecutionStatusAborted

/-- What holds at the position at which the scheduler stopped on a create
error: a non-exists error left the erroring job and its group `failed`; an
`"exists"` error left the job `pending` and the group carrying the `running`
status assigned by the eligibility step; and every recorded creation strictly
precedes the erroring position in `(group, job)` order. -/
def StopConsistent (s : SchedState) : Prop :=
  ∀ gi ji msg, s.stopped = some (gi, ji, msg) →
    (strContains msg "exists" = false →
      jobStatus s.mj gi ji = ExecutionStatusFailed ∧
      groupStatus s.mj gi = ExecutionStatusFailed) ∧
    (strContains msg "exists" = true →
      jobStatus s.mj gi ji = ExecutionStatusPending ∧
      groupStatus s.mj gi = ExecutionStatusRunning) ∧
    (∀ e ∈ s.created, e.1 < gi ∨ (e.1 = gi ∧ e.2.1 < ji))

/-- How one scheduler pass may move the statuses of `m` to those of `m'`:
shapes are preserved; a job status changes only away from `pending` and never
to `succeeded`; a group status changes only away from `pending`/`running`,
except for the promotion of a group all of whose jobs already read
`succeeded`. -/
def SchedMono (m m' : ManagedJob) : Prop :=
  m'.groups.length = m.groups.length ∧
  (∀ gi, (groupAt m' gi).jobs.length = (groupAt m gi).jobs.length) ∧
  (∀ gi ji, jobStatus m' gi ji = jobStatus m gi ji ∨
    (jobStatus m gi ji = ExecutionStatusPending ∧
      jobStatus m' gi ji ≠ ExecutionStatusSucceeded)) ∧
  (∀ gi, groupStatus m' gi = groupStatus m gi ∨
    groupStatus m gi = ExecutionStatusPending ∨ groupStatus m gi = ExecutionStatusRunning ∨
    (groupStatus m' gi = ExecutionStatusSucceeded ∧
      ∀ ji < (groupAt m gi).jobs.length, jobStatus m gi ji = ExecutionStatusSucceeded))

/-! ### Concrete fixtures

Small workflow values used to evaluate the embedded functions at concrete
inputs (counterexamples and witnesses), in the shape of the repository's own
test fixtures (`NewTestManagedJob`/`NewTestGroup`/`NewTestJobDef`). -/

/-- Test fixture: a job definition. -/
def mkJob (n : String) (par : Bool) (st : String) (deps : List ManagedJobDependencies) :
    ManagedJobDefinition :=
  { name := n, parallel := par, image := "busybox", args := [], params := emptyParams,
    status := st, dependencies := deps, compiledParams := emptyParams }

/-- Test fixture: a group. -/
def mkGroup (n : String) (par : Bool) (jobs : List ManagedJobDefinition)
    (deps : List ManagedJobDependencies) (st : String) : ManagedJobGroup :=
  { name := n, parallel := par, jobs := jobs, params := emptyParams,
    dependencies := deps, status := st }

/-- Test fixture: a workflow. -/
def mkWorkflow (n : String) (retries : Int) (groups : List ManagedJobGroup) (st : String) :
    ManagedJob :=
  { name := n, retries := retries, params := emptyParams, groups := groups, status := st }

/-- Creation oracle: every `Create` call succeeds. -/
def createOk : String → Option String := fun _ => none

/-- Creation oracle: every `Create` call fails with an already-exists error
(the message contains the substring `"exists"`). -/
def createExistsErr : String → Option String := fun _ => some "jobs.batch already exists"

/-- Creation oracle: every `Create` call fails with a non-exists error. -/
def createForbiddenErr : String → Option String := fun _ => some "forbidden"

/-- Delete oracle: every `Delete` call fails. -/
def deleteBoom : String → Option String := fun _ => some "forbidden"

/-- A running workflow whose only group is `failed` (its job failed as well):
the input of the aggregator after a group failure. -/
def failedGroupWorkflow : ManagedJob :=
  mkWorkflow "w" 1
    [mkGroup "g" false [mkJob "j" false ExecutionStatusFailed []] [] ExecutionStatusFailed]
    ExecutionStatusRunning

/-- A running workflow whose only job has already been projected `succeeded`. -/
def succeededJobWorkflow : ManagedJob :=
  mkWorkflow "w" 1
    [mkGroup "g" false [mkJob "j" false ExecutionStatusSucceeded []] [] ExecutionStatusRunning]
    ExecutionStatusRunning

/-- The observation of the child `w-g-j` of `succeededJobWorkflow` after its
first pod failed and the retried pod succeeded: both `Failed` and `Succeeded`
counters are positive (a reachable `kbatch.JobStatus` under a positive
backoff limit). -/
def conflictedChild : ChildJob :=
  { name := "w-g-j", active := 0, succeeded := 1, failed := 1 }

/-- A fresh workflow: one pending group with one pending job, no
dependencies. -/
def pendingSingleJobWorkflow : ManagedJob :=
  mkWorkflow "w" 1
    [mkGroup "g" false [mkJob "j" false ExecutionStatusPending []] [] ExecutionStatusPending]
    ExecutionStatusPending

/-- A workflow with a duplicate group name (`g` twice) — input the spec says
planning must reject. -/
def dupNamesWorkflow : ManagedJob :=
  mkWorkflow "w" 1
    [mkGroup "g" false [mkJob "a" false ExecutionStatusPending []] [] ExecutionStatusPending,
     mkGroup "g" false [mkJob "b" false ExecutionStatusPending []] [] ExecutionStatusPending]
    ExecutionStatusPending

/-- A workflow whose only (parallel) job carries the same explicit dependency
name twice. -/
def dupDepsWorkflow : ManagedJob :=
  mkWorkflow "w" 1
    [mkGroup "g" true
      [mkJob "j" true ExecutionStatusPending
        [⟨"d", ExecutionStatusPending⟩, ⟨"d", ExecutionStatusPending⟩]] []
      ExecutionStatusPending]
    ExecutionStatusPending

/-- A workflow with one group holding a parallel job `a` followed by a
sequential job `b`. -/
def seqJobsWorkflow : ManagedJob :=
  mkWorkflow "w" 1
    [mkGroup "g" false
      [mkJob "a" true ExecutionStatusPending [], mkJob "b" false ExecutionStatusPending []] []
      ExecutionStatusPending]
    ExecutionStatusPending

/-- The workflow-level parameter layer of the inheritance scenario. -/
def fooParams : ManagedJobParameters :=
  { emptyParams with env := [⟨"FOO", "bar"⟩] }

/-- The group-level parameter layer of the inheritance scenario. -/
def feeParams : ManagedJobParameters :=
  { emptyParams with env := [⟨"FEE", "bee"⟩] }

/-- The job-level parameter layer of the inheritance scenario. -/
def pooParams : ManagedJobParameters :=
  { emptyParams with env := [⟨"POO", "paz"⟩] }

/-- The parameter-inheritance scenario: workflow env `FOO=bar`, group env
`FEE=bee`, job env `POO=paz`. -/
def paramsWorkflow : ManagedJob :=
  { name := "w"
    retries := 1
    params := fooParams
    groups := [{ mkGroup "g" true [{ mkJob "j" true ExecutionStatusPending [] with
                   params := pooParams }] [] ExecutionStatusPending with
                 params := feeParams }]
    status := ExecutionStatusPending }

/-- A workflow whose two groups both have empty job lists. -/
def emptyGroupsWorkflow : ManagedJob :=
  mkWorkflow "w" 1
    [mkGroup "g1" false [] [] ExecutionStatusPending,
     mkGroup "g2" false [] [] ExecutionStatusPending]
    ExecutionStatusPending

/-- A workflow with a retry budget of 5. -/
def retriesWorkflow : ManagedJob :=
  mkWorkflow "w" 5
    [mkGroup "g" false [mkJob "j" false ExecutionStatusPending []] [] ExecutionStatusPending]
    ExecutionStatusPending

/-! ## Helper lemmas -/

/-- Merging a layer into the zero-valued accumulator reproduces the layer. -/
lemma mergeParams_emptyParams_left (p : ManagedJobParameters) :
    mergeParams emptyParams p = p := by
  by_cases h : p = emptyParams
  · rw [mergeParams, if_pos h, h]
  · rw [mergeParams, if_neg h]
    obtain ⟨fe, env, vol, vm, sa, rp, ips, ipp, lab, ann, res⟩ := p
    cases lab <;> cases ann <;> cases res <;>
      by_cases h1 : sa = "" <;> by_cases h2 : rp = "" <;> by_cases h3 : ipp = "" <;>
        simp_all [emptyParams]

/-- `planJob` leaves the job's status untouched. -/
lemma planJob_status (w g : String) (wp gp : ManagedJobParameters) (pn : List String)
    (j : ManagedJobDefinition) : (planJob w g wp gp pn j).status = j.status := by
  cases hp : j.parallel <;> simp [planJob, hp]

/-- `planJob` leaves the job's name untouched. -/
lemma planJob_name (w g : String) (wp gp : ManagedJobParameters) (pn : List String)
    (j : ManagedJobDefinition) : (planJob w g wp gp pn j).name = j.name := by
  cases hp : j.parallel <;> simp [planJob, hp]

/-- The dependency list produced by `planJob`. -/
lemma planJob_dependencies (w g : String) (wp gp : ManagedJobParameters) (pn : List String)
    (j : ManagedJobDefinition) :
    (planJob w g wp gp pn j).dependencies =
      if j.parallel then j.dependencies
      else addDependencies j.dependencies (pn.map (fun p => jobNameGenerator [w, g, p])) := by
  cases hp : j.parallel <;> simp [planJob, hp]

/-- The compiled parameters produced by `planJob`. -/
lemma planJob_compiledParams (w g : String) (wp gp : ManagedJobParameters) (pn : List String)
    (j : ManagedJobDefinition) :
    (planJob w g wp gp pn j).compiledParams = compileParameters [wp, gp, j.params] := by
  cases hp : j.parallel <;> simp [planJob, hp]

/-- `planJobs` preserves the length of the job list. -/
lemma planJobs_length (w g : String) (wp gp : ManagedJobParameters)
    (jobs : List ManagedJobDefinition) : (planJobs w g wp gp jobs).length = jobs.length := by
  simp [planJobs]

/-- Pointwise characterisation of `planJobs`. -/
lemma planJobs_getD (w g : String) (wp gp : ManagedJobParameters)
    (jobs : List ManagedJobDefinition) (i : Nat) (h : i < jobs.length) :
    (planJobs w g wp gp jobs).getD i default =
      planJob w g wp gp
        (takeWhileNe (jobs.getD i default).name ((jobs.take (i + 1)).map (fun q => q.name)))
        (jobs.getD i default) := by
  unfold planJobs
  rw [List.getD_eq_getElem?_getD, List.getElem?_map, List.getElem?_range h]
  rfl

/-- `planGroup` leaves the group's status untouched. -/
lemma planGroup_status (w : String) (wp : ManagedJobParameters) (pn : List String)
    (g : ManagedJobGroup) : (planGroup w wp pn g).status = g.status := by
  cases hp : g.parallel <;> simp [planGroup, hp]

/-- `planGroup` leaves the group's name untouched. -/
lemma planGroup_name (w : String) (wp : ManagedJobParameters) (pn : List String)
    (g : ManagedJobGroup) : (planGroup w wp pn g).name = g.name := by
  cases hp : g.parallel <;> simp [planGroup, hp]

/-- `planGroup` plans the group's jobs with `planJobs`. -/
lemma planGroup_jobs (w : String) (wp : ManagedJobParameters) (pn : List String)
    (g : ManagedJobGroup) :
    (planGroup w wp pn g).jobs = planJobs w g.name wp g.params g.jobs := by
  cases hp : g.parallel <;> simp [planGroup, hp]

/-- The dependency list produced by `planGroup`. -/
lemma planGroup_dependencies (w : String) (wp : ManagedJobParameters) (pn : List String)
    (g : ManagedJobGroup) :
    (planGroup w wp pn g).dependencies =
      if g.parallel then g.dependencies else addDependencies g.dependencies pn := by
  cases hp : g.parallel <;> simp [planGroup, hp]

/-- `planGroups` preserves the length of the group list. -/
lemma planGroups_length (w : String) (wp : ManagedJobParameters)
    (groups : List ManagedJobGroup) : (planGroups w wp groups).length = groups.length := by
  simp [planGroups]

/-- Pointwise characterisation of `planGroups`. -/
lemma planGroups_getD (w : String) (wp : ManagedJobParameters)
    (groups : List ManagedJobGroup) (i : Nat) (h : i < groups.length) :
    (planGroups w wp groups).getD i default =
      planGroup w wp
        (takeWhileNe (groups.getD i default).name ((groups.take (i + 1)).map (fun q => q.name)))
        (groups.getD i default) := by
  unfold planGroups
  rw [List.getD_eq_getElem?_getD, List.getElem?_map, List.getElem?_range h]
  rfl

/-- `planJobs` preserves the job statuses, pointwise. -/
lemma planJobs_statuses (w g : String) (wp gp : ManagedJobParameters)
    (jobs : List ManagedJobDefinition) :
    (planJobs w g wp gp jobs).map (fun j => j.status) = jobs.map (fun j => j.status) := by
  apply List.ext_getElem
  · simp [planJobs_length]
  · intro n h1 h2
    have hn : n < jobs.length := by simpa using h2
    have := planJobs_getD w g wp gp jobs n hn
    rw [List.getD_eq_getElem?_getD, List.getD_eq_getElem?_getD] at this
    rw [List.getElem?_eq_getElem hn] at this
    have hn' : n < (planJobs w g wp gp jobs).length := by
      rw [planJobs_length]; exact hn
    rw [List.getElem?_eq_getElem hn'] at this
    simp only [Option.getD_some] at this
    simp [this, planJob_status]

/-- `getD` agrees with `getElem` at valid indices. -/
lemma getD_eq_getElem_of_lt {α : Type} (l : List α) (d : α) {n : Nat} (h : n < l.length) :
    l.getD n d = l[n] := by
  rw [List.getD_eq_getElem?_getD, List.getElem?_eq_getElem h]
  rfl

/-- `planGroups` preserves the group statuses, pointwise. -/
lemma planGroups_statuses (w : String) (wp : ManagedJobParameters)
    (groups : List ManagedJobGroup) :
    (planGroups w wp groups).map (fun g => g.status) = groups.map (fun g => g.status) := by
  apply List.ext_getElem
  · simp [planGroups_length]
  · intro n h1 h2
    rw [List.getElem_map, List.getElem_map]
    have hn : n < groups.length := by simpa using h2
    have hn' : n < (planGroups w wp groups).length := by
      rw [planGroups_length]; exact hn
    rw [← getD_eq_getElem_of_lt (planGroups w wp groups) default hn',
      ← getD_eq_getElem_of_lt groups default hn, planGroups_getD w wp groups n hn,
      planGroup_status]

/-- `planGroups` preserves every job status, pointwise. -/
lemma planGroups_jobStatuses (w : String) (wp : ManagedJobParameters)
    (groups : List ManagedJobGroup) :
    (planGroups w wp groups).map (fun g => g.jobs.map (fun j => j.status)) =
      groups.map (fun g => g.jobs.map (fun j => j.status)) := by
  apply List.ext_getElem
  · simp [planGroups_length]
  · intro n h1 h2
    rw [List.getElem_map, List.getElem_map]
    have hn : n < groups.length := by simpa using h2
    have hn' : n < (planGroups w wp groups).length := by
      rw [planGroups_length]; exact hn
    rw [← getD_eq_getElem_of_lt (planGroups w wp groups) default hn',
      ← getD_eq_getElem_of_lt groups default hn, planGroups_getD w wp groups n hn,
      planGroup_jobs, planJobs_statuses]

/-- Presence in a dependency list, unfolded. -/
lemma checkIfPresentInDependencies_iff (deps : List ManagedJobDependencies) (n : String) :
    checkIfPresentInDependencies deps n = true ↔ ∃ d ∈ deps, d.name = n := by
  simp [checkIfPresentInDependencies, List.any_eq_true]

/-- `addDependencyIfAbsent` keeps every existing entry. -/
lemma mem_addDependencyIfAbsent (deps : List ManagedJobDependencies) (n : String)
    (d : ManagedJobDependencies) (hd : d ∈ deps) : d ∈ addDependencyIfAbsent deps n := by
  unfold addDependencyIfAbsent
  split
  · exact hd
  · exact List.mem_append_left _ hd

/-- After `addDependencyIfAbsent deps n` an entry named `n` is present. -/
lemma exists_name_addDependencyIfAbsent (deps : List ManagedJobDependencies) (n : String) :
    ∃ d ∈ addDependencyIfAbsent deps n, d.name = n := by
  unfold addDependencyIfAbsent
  split
  · next h => exact (checkIfPresentInDependencies_iff deps n).mp h
  · exact ⟨⟨n, ExecutionStatusPending⟩,
      List.mem_append_right _ (List.mem_singleton_self _), rfl⟩

/-- `addDependencyIfAbsent` keeps the name list duplicate-free. -/
lemma nodup_addDependencyIfAbsent (deps : List ManagedJobDependencies) (n : String)
    (h : (deps.map (fun d => d.name)).Nodup) :
    ((addDependencyIfAbsent deps n).map (fun d => d.name)).Nodup := by
  unfold addDependencyIfAbsent
  split
  · exact h
  · next hnp =>
    rw [List.map_append, List.nodup_append]
    refine ⟨h, List.nodup_singleton _, ?_⟩
    intro a ha hb
    have ha' : ∃ d ∈ deps, d.name = a := by
      obtain ⟨d, hd, hda⟩ := List.mem_map.mp ha
      exact ⟨d, hd, hda⟩
    have hb' : a = n := by simpa using hb
    exact hnp ((checkIfPresentInDependencies_iff deps n).mpr (hb' ▸ ha'))

/-- Unfolding one step of `addDependencies`. -/
lemma addDependencies_cons (deps : List ManagedJobDependencies) (n : String)
    (ns : List String) :
    addDependencies deps (n :: ns) = addDependencies (addDependencyIfAbsent deps n) ns := rfl

/-- `addDependencies` keeps every existing entry. -/
lemma mem_addDependencies (ns : List String) (deps : List ManagedJobDependencies)
    (d : ManagedJobDependencies) (hd : d ∈ deps) : d ∈ addDependencies deps ns := by
  induction ns generalizing deps with
  | nil => exact hd
  | cons n ns ih =>
    rw [addDependencies_cons]
    exact ih _ (mem_addDependencyIfAbsent _ _ _ hd)

/-- After `addDependencies deps ns` an entry named `n` is present for every
`n ∈ ns`. -/
lemma exists_name_addDependencies (ns : List String) (deps : List ManagedJobDependencies)
    (n : String) (hn : n ∈ ns) : ∃ d ∈ addDependencies deps ns, d.name = n := by
  induction ns generalizing deps with
  | nil => cases hn
  | cons m ms ih =>
    rw [addDependencies_cons]
    rcases List.mem_cons.mp hn with h | h
    · subst h
      obtain ⟨d, hd, hname⟩ := exists_name_addDependencyIfAbsent deps n
      exact ⟨d, mem_addDependencies ms _ d hd, hname⟩
    · exact ih _ h

/-- `addDependencies` keeps the name list duplicate-free. -/
lemma nodup_addDependencies (ns : List String) (deps : List ManagedJobDependencies)
    (h : (deps.map (fun d => d.name)).Nodup) :
    ((addDependencies deps ns).map (fun d => d.name)).Nodup := by
  induction ns generalizing deps with
  | nil => exact h
  | cons n ns ih =>
    rw [addDependencies_cons]
    exact ih _ (nodup_addDependencyIfAbsent _ _ h)

/-- `takeWhileNe` of `l ++ [x]` recovers `l` when `x` does not occur in `l`. -/
lemma takeWhileNe_append_self (x : String) (l : List String) (h : ∀ y ∈ l, y ≠ x) :
    takeWhileNe x (l ++ [x]) = l := by
  induction l with
  | nil =>
    simp only [takeWhileNe, List.nil_append]
    exact @List.takeWhile_cons_of_neg _ (fun y => y != x) x [] (by simp)
  | cons a l ih =>
    have ha : (a != x) = true := by
      simpa using h a (List.mem_cons_self a l)
    simp only [takeWhileNe] at ih ⊢
    rw [List.cons_append,
      @List.takeWhile_cons_of_pos _ (fun y => y != x) a (l ++ [x]) ha,
      ih (fun y hy => h y (List.mem_cons_of_mem a hy))]

/-- In a duplicate-free list, the prefix before position `ji` avoids the
element at `ji`. -/
lemma nodup_take_ne {α : Type} [DecidableEq α] (N : List α) (hN : N.Nodup) (ji : Nat)
    (hji : ji < N.length) : ∀ y ∈ N.take ji, y ≠ N[ji] := by
  intro y hy
  obtain ⟨k, hk, hky⟩ := List.mem_iff_getElem.mp hy
  have hkj : k < ji := by
    have := hk
    simp [List.length_take] at this
    omega
  have hkN : k < N.length := by omega
  have hNk : (N.take ji)[k] = N[k] := List.getElem_take N
  intro hcontra
  rw [← hky, hNk] at hcontra
  have := (hN.getElem_inj_iff).mp hcontra
  omega

/-- `getD` commutes with `map` when the default is in the image. -/
lemma getD_map {α β : Type} (f : α → β) (l : List α) (i : Nat) (d : α) :
    (l.map f).getD i (f d) = f (l.getD i d) := by
  rw [List.getD_eq_getElem?_getD, List.getD_eq_getElem?_getD, List.getElem?_map]
  cases l[i]? <;> rfl

/-- A fold preserves any invariant its step preserves. -/
lemma foldl_invariant {α σ : Type} (f : σ → α → σ) (P : σ → Prop)
    (h : ∀ s a, P s → P (f s a)) : ∀ (L : List α) (s : σ), P s → P (List.foldl f s L) := by
  intro L
  induction L with
  | nil => intro s hs; exact hs
  | cons a L ih => intro s hs; exact ih _ (h s a hs)

/-- Structure of a group after `updateDependentJobs`. -/
lemma groupAt_updateDependentJobs (m : ManagedJob) (a b : String) (gi : Nat) :
    groupAt (updateDependentJobs m a b) gi =
      { groupAt m gi with jobs := (groupAt m gi).jobs.map (fun j =>
          { j with dependencies := j.dependencies.map (updateDepEntry a b) }) } := by
  unfold updateDependentJobs groupAt
  exact getD_map _ m.groups gi default

/-- `updateDependentJobs` leaves every group status unchanged. -/
lemma groupStatus_updateDependentJobs (m : ManagedJob) (a b : String) (gi : Nat) :
    groupStatus (updateDependentJobs m a b) gi = groupStatus m gi := by
  unfold groupStatus
  rw [groupAt_updateDependentJobs]

/-- Structure of a job after `updateDependentJobs`. -/
lemma jobAt_updateDependentJobs (m : ManagedJob) (a b : String) (gi ji : Nat) :
    jobAt (updateDependentJobs m a b) gi ji =
      { jobAt m gi ji with dependencies :=
          (jobAt m gi ji).dependencies.map (updateDepEntry a b) } := by
  unfold jobAt
  rw [groupAt_updateDependentJobs]
  exact getD_map _ (groupAt m gi).jobs ji default

/-- `updateDependentJobs` leaves every job status unchanged. -/
lemma jobStatus_updateDependentJobs (m : ManagedJob) (a b : String) (gi ji : Nat) :
    jobStatus (updateDependentJobs m a b) gi ji = jobStatus m gi ji := by
  unfold jobStatus
  rw [jobAt_updateDependentJobs]

/-- `updateDependentJobs` preserves the number of groups. -/
lemma groupsLength_updateDependentJobs (m : ManagedJob) (a b : String) :
    (updateDependentJobs m a b).groups.length = m.groups.length := by
  simp [updateDependentJobs]

/-- `updateDependentJobs` preserves every group's number of jobs. -/
lemma jobsLength_updateDependentJobs (m : ManagedJob) (a b : String) (gi : Nat) :
    (groupAt (updateDependentJobs m a b) gi).jobs.length = (groupAt m gi).jobs.length := by
  rw [groupAt_updateDependentJobs]
  simp

/-- Structure of a group after `updateDependentGroups`. -/
lemma groupAt_updateDependentGroups (m : ManagedJob) (a b : String) (gi : Nat) :
    groupAt (updateDependentGroups m a b) gi =
      { groupAt m gi with dependencies :=
          (groupAt m gi).dependencies.map (updateDepEntry a b) } := by
  unfold updateDependentGroups groupAt
  exact getD_map _ m.groups gi default

/-- `updateDependentGroups` leaves every group status unchanged. -/
lemma groupStatus_updateDependentGroups (m : ManagedJob) (a b : String) (gi : Nat) :
    groupStatus (updateDependentGroups m a b) gi = groupStatus m gi := by
  unfold groupStatus
  rw [groupAt_updateDependentGroups]

/-- `updateDependentGroups` leaves every job unchanged. -/
lemma jobAt_updateDependentGroups (m : ManagedJob) (a b : String) (gi ji : Nat) :
    jobAt (updateDependentGroups m a b) gi ji = jobAt m gi ji := by
  unfold jobAt
  rw [groupAt_updateDependentGroups]

/-- `updateDependentGroups` leaves every job status unchanged. -/
lemma jobStatus_updateDependentGroups (m : ManagedJob) (a b : String) (gi ji : Nat) :
    jobStatus (updateDependentGroups m a b) gi ji = jobStatus m gi ji := by
  unfold jobStatus
  rw [jobAt_updateDependentGroups]

/-- `updateDependentGroups` preserves the number of groups. -/
lemma groupsLength_updateDependentGroups (m : ManagedJob) (a b : String) :
    (updateDependentGroups m a b).groups.length = m.groups.length := by
  simp [updateDependentGroups]

/-- `updateDependentGroups` preserves every group's number of jobs. -/
lemma jobsLength_updateDependentGroups (m : ManagedJob) (a b : String) (gi : Nat) :
    (groupAt (updateDependentGroups m a b) gi).jobs.length = (groupAt m gi).jobs.length := by
  rw [groupAt_updateDependentGroups]

/-- Structure of a group after `setGroupStatus`. -/
lemma groupAt_setGroupStatus (m : ManagedJob) (gi : Nat) (st : String) (gi' : Nat) :
    groupAt (setGroupStatus m gi st) gi' =
      if gi = gi' ∧ gi < m.groups.length then { groupAt m gi with status := st }
      else groupAt m gi' := by
  by_cases h2 : gi < m.groups.length
  · by_cases h1 : gi = gi'
    · subst h1
      show (m.groups.set gi { groupAt m gi with status := st }).getD gi default = _
      rw [List.getD_eq_getElem?_getD, List.getElem?_set]
      simp [h2]
    · show (m.groups.set gi { groupAt m gi with status := st }).getD gi' default = _
      rw [List.getD_eq_getElem?_getD, List.getElem?_set, if_neg h1,
        ← List.getD_eq_getElem?_getD, if_neg (by simp [h1])]
      rfl
  · have hset : m.groups.set gi { groupAt m gi with status := st } = m.groups :=
      List.set_eq_of_length_le (Nat.le_of_not_lt h2)
    show (m.groups.set gi { groupAt m gi with status := st }).getD gi' default = _
    rw [hset, if_neg (by intro hc; exact h2 hc.2)]
    rfl

/-- `setGroupStatus` only rewrites the addressed group's status. -/
lemma groupStatus_setGroupStatus (m : ManagedJob) (gi : Nat) (st : String) (gi' : Nat) :
    groupStatus (setGroupStatus m gi st) gi' =
      if gi = gi' ∧ gi < m.groups.length then st else groupStatus m gi' := by
  unfold groupStatus
  rw [groupAt_setGroupStatus]
  split <;> rfl

/-- `setGroupStatus` leaves every job unchanged. -/
lemma jobAt_setGroupStatus (m : ManagedJob) (gi : Nat) (st : String) (gi' ji : Nat) :
    jobAt (setGroupStatus m gi st) gi' ji = jobAt m gi' ji := by
  unfold jobAt
  rw [groupAt_setGroupStatus]
  split
  · next h => rw [h.1]
  · rfl

/-- `setGroupStatus` leaves every job status unchanged. -/
lemma jobStatus_setGroupStatus (m : ManagedJob) (gi : Nat) (st : String) (gi' ji : Nat) :
    jobStatus (setGroupStatus m gi st) gi' ji = jobStatus m gi' ji := by
  unfold jobStatus
  rw [jobAt_setGroupStatus]

/-- `setGroupStatus` preserves the number of groups. -/
lemma groupsLength_setGroupStatus (m : ManagedJob) (gi : Nat) (st : String) :
    (setGroupStatus m gi st).groups.length = m.groups.length := by
  simp [setGroupStatus]

/-- `setGroupStatus` preserves every group's number of jobs. -/
lemma jobsLength_setGroupStatus (m : ManagedJob) (gi : Nat) (st : String) (gi' : Nat) :
    (groupAt (setGroupStatus m gi st) gi').jobs.length = (groupAt m gi').jobs.length := by
  rw [groupAt_setGroupStatus]
  split
  · next h => rw [h.1]
  · rfl

/-- Structure of a group after `setJobStatus`. -/
lemma groupAt_setJobStatus (m : ManagedJob) (gi ji : Nat) (st : String) (gi' : Nat) :
    groupAt (setJobStatus m gi ji st) gi' =
      if gi = gi' ∧ gi < m.groups.length then
        { groupAt m gi with jobs :=
            (groupAt m gi).jobs.set ji { jobAt m gi ji with status := st } }
      else groupAt m gi' := by
  by_cases h2 : gi < m.groups.length
  · by_cases h1 : gi = gi'
    · subst h1
      show (m.groups.set gi _).getD gi default = _
      rw [List.getD_eq_getElem?_getD, List.getElem?_set]
      simp [h2]
    · show (m.groups.set gi _).getD gi' default = _
      rw [List.getD_eq_getElem?_getD, List.getElem?_set, if_neg h1,
        ← List.getD_eq_getElem?_getD, if_neg (by simp [h1])]
      rfl
  · have hset : m.groups.set gi
        { groupAt m gi with jobs :=
            (groupAt m gi).jobs.set ji { jobAt m gi ji with status := st } } = m.groups :=
      List.set_eq_of_length_le (Nat.le_of_not_lt h2)
    show (m.groups.set gi _).getD gi' default = _
    rw [hset, if_neg (by intro hc; exact h2 hc.2)]
    rfl

/-- `setJobStatus` leaves every group status unchanged. -/
lemma groupStatus_setJobStatus (m : ManagedJob) (gi ji : Nat) (st : String) (gi' : Nat) :
    groupStatus (setJobStatus m gi ji st) gi' = groupStatus m gi' := by
  unfold groupStatus
  rw [groupAt_setJobStatus]
  split
  · next h => rw [h.1]
  · rfl

/-- `setJobStatus` only rewrites the addressed job's status. -/
lemma jobAt_setJobStatus (m : ManagedJob) (gi ji : Nat) (st : String) (gi' ji' : Nat) :
    jobAt (setJobStatus m gi ji st) gi' ji' =
      if gi = gi' ∧ ji = ji' ∧ gi < m.groups.length ∧ ji < (groupAt m gi).jobs.length then
        { jobAt m gi ji with status := st }
      else jobAt m gi' ji' := by
  unfold jobAt
  rw [groupAt_setJobStatus]
  by_cases h1 : gi = gi' ∧ gi < m.groups.length
  · rw [if_pos h1]
    obtain ⟨h1a, h1b⟩ := h1
    subst h1a
    by_cases h4 : ji < (groupAt m gi).jobs.length
    · by_cases h3 : ji = ji'
      · subst h3
        have hcond : gi = gi ∧ ji = ji ∧ gi < m.groups.length ∧
            ji < (groupAt m gi).jobs.length := ⟨rfl, rfl, h1b, h4⟩
        rw [if_pos hcond]
        show ((groupAt m gi).jobs.set ji _).getD ji default = _
        rw [List.getD_eq_getElem?_getD, List.getElem?_set, if_pos rfl, if_pos h4]
        rfl
      · show ((groupAt m gi).jobs.set ji _).getD ji' default = _
        rw [List.getD_eq_getElem?_getD, List.getElem?_set, if_neg h3,
          ← List.getD_eq_getElem?_getD, if_neg (by simp [h3])]
    · have hset : (groupAt m gi).jobs.set ji { jobAt m gi ji with status := st } =
          (groupAt m gi).jobs :=
        List.set_eq_of_length_le (Nat.le_of_not_lt h4)
      show ((groupAt m gi).jobs.set ji _).getD ji' default = _
      rw [hset, if_neg (by intro hc; exact h4 hc.2.2.2)]
  · rw [if_neg h1, if_neg (by intro hc; exact h1 ⟨hc.1, hc.2.2.1⟩)]

/-- `setJobStatus` only rewrites the addressed job's status (status form). -/
lemma jobStatus_setJobStatus (m : ManagedJob) (gi ji : Nat) (st : String) (gi' ji' : Nat) :
    jobStatus (setJobStatus m gi ji st) gi' ji' =
      if gi = gi' ∧ ji = ji' ∧ gi < m.groups.length ∧ ji < (groupAt m gi).jobs.length then st
      else jobStatus m gi' ji' := by
  unfold jobStatus
  rw [jobAt_setJobStatus]
  split <;> rfl

/-- `setJobStatus` preserves the number of groups. -/
lemma groupsLength_setJobStatus (m : ManagedJob) (gi ji : Nat) (st : String) :
    (setJobStatus m gi ji st).groups.length = m.groups.length := by
  simp [setJobStatus]

/-- `setJobStatus` preserves every group's number of jobs. -/
lemma jobsLength_setJobStatus (m : ManagedJob) (gi ji : Nat) (st : String) (gi' : Nat) :
    (groupAt (setJobStatus m gi ji st) gi').jobs.length = (groupAt m gi').jobs.length := by
  rw [groupAt_setJobStatus]
  split
  · next h => rw [h.1]; simp
  · rfl

/-- An indexed invariant carried through the scheduler's job loop. -/
lemma runJobsAux_invariant (ce : String → Option String) (gi : Nat)
    (P : Nat → SchedState → Prop)
    (hstep : ∀ s ji, P ji s → P (ji + 1) (runJobStep ce s gi ji)) :
    ∀ (n ji : Nat) (s : SchedState), P ji s → P (ji + n) (runJobsAux ce gi n ji s) := by
  intro n
  induction n with
  | zero => intro ji s h; simpa using h
  | succ n ih =>
    intro ji s h
    have h2 := ih (ji + 1) (runJobStep ce s gi ji) (hstep s ji h)
    have heq : ji + 1 + n = ji + (n + 1) := by omega
    rw [heq] at h2
    exact h2

/-- An indexed invariant carried through the scheduler's group loop. -/
lemma runGroupsAux_invariant (ce : String → Option String)
    (P : Nat → SchedState → Prop)
    (hstep : ∀ s gi, P gi s → P (gi + 1) (runGroupStep ce s gi)) :
    ∀ (n gi : Nat) (s : SchedState), P gi s → P (gi + n) (runGroupsAux ce n gi s) := by
  intro n
  induction n with
  | zero => intro gi s h; simpa using h
  | succ n ih =>
    intro gi s h
    have h2 := ih (gi + 1) (runGroupStep ce s gi) (hstep s gi h)
    have heq : gi + 1 + n = gi + (n + 1) := by omega
    rw [heq] at h2
    exact h2

/-- On a group whose job list is empty (all of zero jobs counted succeeded),
`runGroupStep` takes the promotion branch: it marks the group succeeded, fans
the status out, and neither creates anything nor stops. -/
lemma runGroupStep_emptyJobs (ce : String → Option String) (s : SchedState) (gi : Nat)
    (hstop : s.stopped = none) (hjobs : (groupAt s.mj gi).jobs = []) :
    runGroupStep ce s gi =
      { mj := updateDependentGroups (setGroupStatus s.mj gi ExecutionStatusSucceeded)
          (groupAt s.mj gi).name ExecutionStatusSucceeded,
        created := s.created, stopped := none } := by
  unfold runGroupStep
  simp [hstop, hjobs]

/-- The counting loop of `checkOverallStatus` counts every group when all of
them are succeeded. -/
lemma checkOverallStatus_count (l : List ManagedJobGroup) :
    ∀ acc : Nat × String, (∀ g ∈ l, g.status = ExecutionStatusSucceeded) →
      (l.foldl overallStep acc).1 = acc.1 + l.length := by
  induction l with
  | nil => intro acc h; simp
  | cons g l ih =>
    intro acc h
    have hg : g.status = ExecutionStatusSucceeded := h g (List.mem_cons_self g l)
    rw [List.foldl_cons]
    have hstep : overallStep acc g = (acc.1 + 1, acc.2) := by
      unfold overallStep
      rw [if_pos hg]
    rw [hstep, ih (acc.1 + 1, acc.2) (fun g' hg' => h g' (List.mem_cons_of_mem _ hg'))]
    simp only [List.length_cons]
    omega

/-- `checkOverallStatus` reports `succeeded` when every group is succeeded. -/
lemma checkOverallStatus_all_succeeded (m : ManagedJob)
    (h : ∀ g ∈ m.groups, g.status = ExecutionStatusSucceeded) :
    (checkOverallStatus m).status = ExecutionStatusSucceeded := by
  unfold checkOverallStatus
  simp only [checkOverallStatus_count m.groups (0, m.status) h]
  simp

/-- Out-of-range group access yields the default group. -/
lemma groupAt_out_of_range (m : ManagedJob) (gi : Nat) (h : ¬ gi < m.groups.length) :
    groupAt m gi = default := by
  unfold groupAt
  rw [List.getD_eq_getElem?_getD, List.getElem?_eq_none (Nat.le_of_not_lt h)]
  rfl

/-- Out-of-range job access yields the default job. -/
lemma jobAt_out_of_range (m : ManagedJob) (gi ji : Nat)
    (h : ¬ ji < (groupAt m gi).jobs.length) : jobAt m gi ji = default := by
  unfold jobAt
  rw [List.getD_eq_getElem?_getD, List.getElem?_eq_none (Nat.le_of_not_lt h)]
  rfl

/-- Only a real (in-range) job can carry the `pending` status. -/
lemma valid_of_jobStatus_pending (m : ManagedJob) (gi ji : Nat)
    (h : jobStatus m gi ji = ExecutionStatusPending) :
    gi < m.groups.length ∧ ji < (groupAt m gi).jobs.length := by
  by_cases hj : ji < (groupAt m gi).jobs.length
  · refine ⟨?_, hj⟩
    by_cases hg : gi < m.groups.length
    · exact hg
    · exfalso
      rw [groupAt_out_of_range m gi hg] at hj
      have h0 : (default : ManagedJobGroup).jobs.length = 0 := rfl
      omega
  · exfalso
    have hd : jobStatus m gi ji = "" := by
      unfold jobStatus
      rw [jobAt_out_of_range m gi ji hj]
      rfl
    rw [hd] at h
    exact absurd h (by decide)

/-- A group with a nonempty job list is in range. -/
lemma valid_of_jobs_ne_nil (m : ManagedJob) (gi : Nat)
    (h : (groupAt m gi).jobs ≠ []) : gi < m.groups.length := by
  by_cases hg : gi < m.groups.length
  · exact hg
  · exfalso
    rw [groupAt_out_of_range m gi hg] at h
    exact h rfl

/-- Frame of the scheduler's job-dependency loop: lengths and group statuses
are untouched; the only possible job-status change is the considered job
moving to `aborted`. -/
lemma jobDepLoop_frame (gi ji : Nat) (m : ManagedJob) :
    (jobDepLoop gi ji m).1.groups.length = m.groups.length ∧
    (∀ g', (groupAt (jobDepLoop gi ji m).1 g').jobs.length = (groupAt m g').jobs.length) ∧
    (∀ g', groupStatus (jobDepLoop gi ji m).1 g' = groupStatus m g') ∧
    (∀ g' j', jobStatus (jobDepLoop gi ji m).1 g' j' = jobStatus m g' j' ∨
      (g' = gi ∧ j' = ji ∧
        jobStatus (jobDepLoop gi ji m).1 g' j' = ExecutionStatusAborted)) := by
  unfold jobDepLoop
  refine foldl_invariant (jobDepStep gi ji)
    (fun acc : ManagedJob × Nat =>
      acc.1.groups.length = m.groups.length ∧
      (∀ g', (groupAt acc.1 g').jobs.length = (groupAt m g').jobs.length) ∧
      (∀ g', groupStatus acc.1 g' = groupStatus m g') ∧
      (∀ g' j', jobStatus acc.1 g' j' = jobStatus m g' j' ∨
        (g' = gi ∧ j' = ji ∧ jobStatus acc.1 g' j' = ExecutionStatusAborted)))
    ?_ (List.range (jobAt m gi ji).dependencies.length) (m, 0)
    ⟨rfl, fun _ => rfl, fun _ => rfl, fun _ _ => Or.inl rfl⟩
  intro acc di hacc
  obtain ⟨ha1, ha2, ha3, ha4⟩ := hacc
  simp only [jobDepStep]
  split
  · refine ⟨?_, ?_, ?_, ?_⟩
    · rw [groupsLength_updateDependentJobs, groupsLength_setJobStatus]
      exact ha1
    · intro g'
      rw [jobsLength_updateDependentJobs, jobsLength_setJobStatus]
      exact ha2 g'
    · intro g'
      rw [groupStatus_updateDependentJobs, groupStatus_setJobStatus]
      exact ha3 g'
    · intro g' j'
      rw [jobStatus_updateDependentJobs, jobStatus_setJobStatus]
      split
      · next hcond => exact Or.inr ⟨hcond.1.symm, hcond.2.1.symm, rfl⟩
      · exact ha4 g' j'
  · exact ⟨ha1, ha2, ha3, ha4⟩

/-- Frame of the scheduler's group-dependency loop: lengths and job statuses
are untouched; the only possible group-status change is the considered group
moving to `aborted`. -/
lemma groupDepLoop_frame (gi : Nat) (m : ManagedJob) :
    (groupDepLoop gi m).1.groups.length = m.groups.length ∧
    (∀ g', (groupAt (groupDepLoop gi m).1 g').jobs.length = (groupAt m g').jobs.length) ∧
    (∀ g' j', jobStatus (groupDepLoop gi m).1 g' j' = jobStatus m g' j') ∧
    (∀ g', groupStatus (groupDepLoop gi m).1 g' = groupStatus m g' ∨
      (g' = gi ∧ groupStatus (groupDepLoop gi m).1 g' = ExecutionStatusAborted)) := by
  unfold groupDepLoop
  refine foldl_invariant (groupDepStep gi)
    (fun acc : ManagedJob × Nat =>
      acc.1.groups.length = m.groups.length ∧
      (∀ g', (groupAt acc.1 g').jobs.length = (groupAt m g').jobs.length) ∧
      (∀ g' j', jobStatus acc.1 g' j' = jobStatus m g' j') ∧
      (∀ g', groupStatus acc.1 g' = groupStatus m g' ∨
        (g' = gi ∧ groupStatus acc.1 g' = ExecutionStatusAborted)))
    ?_ (List.range (groupAt m gi).dependencies.length) (m, 0)
    ⟨rfl, fun _ => rfl, fun _ _ => rfl, fun _ => Or.inl rfl⟩
  intro acc di hacc
  obtain ⟨ha1, ha2, ha3, ha4⟩ := hacc
  simp only [groupDepStep]
  split
  · refine ⟨?_, ?_, ?_, ?_⟩
    · rw [groupsLength_updateDependentGroups, groupsLength_setGroupStatus]
      exact ha1
    · intro g'
      rw [jobsLength_updateDependentGroups, jobsLength_setGroupStatus]
      exact ha2 g'
    · intro g' j'
      rw [jobStatus_updateDependentGroups, jobStatus_setGroupStatus]
      exact ha3 g' j'
    · intro g'
      rw [groupStatus_updateDependentGroups, groupStatus_setGroupStatus]
      split
      · next hcond => exact Or.inr ⟨hcond.1.symm, rfl⟩
      · exact ha4 g'
  · exact ⟨ha1, ha2, ha3, ha4⟩

/-- Only a real (in-range) group can carry the `pending` or `running`
status. -/
lemma valid_of_groupStatus_real (m : ManagedJob) (gi : Nat)
    (h : groupStatus m gi = ExecutionStatusPending ∨
      groupStatus m gi = ExecutionStatusRunning) :
    gi < m.groups.length := by
  by_cases hg : gi < m.groups.length
  · exact hg
  · exfalso
    have hd : groupStatus m gi = "" := by
      unfold groupStatus
      rw [groupAt_out_of_range m gi hg]
      rfl
    rcases h with h | h <;> rw [hd] at h <;> exact absurd h (by decide)

/-- `terminalFanOut` preserves the number of groups. -/
lemma groupsLength_terminalFanOut (m : ManagedJob) (gi : Nat) :
    (terminalFanOut m gi).groups.length = m.groups.length := by
  unfold terminalFanOut
  split
  · exact groupsLength_updateDependentGroups m _ _
  · rfl

/-- `terminalFanOut` preserves every group's number of jobs. -/
lemma jobsLength_terminalFanOut (m : ManagedJob) (gi gi' : Nat) :
    (groupAt (terminalFanOut m gi) gi').jobs.length = (groupAt m gi').jobs.length := by
  unfold terminalFanOut
  split
  · exact jobsLength_updateDependentGroups m _ _ gi'
  · rfl

/-- `terminalFanOut` preserves every group status. -/
lemma groupStatus_terminalFanOut (m : ManagedJob) (gi gi' : Nat) :
    groupStatus (terminalFanOut m gi) gi' = groupStatus m gi' := by
  unfold terminalFanOut
  split
  · exact groupStatus_updateDependentGroups m _ _ gi'
  · rfl

/-- `terminalFanOut` preserves every job status. -/
lemma jobStatus_terminalFanOut (m : ManagedJob) (gi gi' ji : Nat) :
    jobStatus (terminalFanOut m gi) gi' ji = jobStatus m gi' ji := by
  unfold terminalFanOut
  split
  · exact jobStatus_updateDependentGroups m _ _ gi' ji
  · rfl

/-- A stopped scheduler state passes through the job step unchanged. -/
lemma runJobStep_of_stopped (ce : String → Option String) (s : SchedState) (gi ji : Nat)
    (h : s.stopped ≠ none) : runJobStep ce s gi ji = s := by
  unfold runJobStep
  rw [if_pos (Option.isSome_iff_ne_none.mpr h)]

/-- A non-pending job passes through the job step unchanged. -/
lemma runJobStep_of_not_pending (ce : String → Option String) (s : SchedState) (gi ji : Nat)
    (h1 : s.stopped = none) (h2 : (jobAt s.mj gi ji).status ≠ ExecutionStatusPending) :
    runJobStep ce s gi ji = s := by
  unfold runJobStep
  rw [if_neg (by simp [h1]), if_neg h2]

/-- Job step on a pending job whose dependency loop did not count every
dependency succeeded: only the dependency loop's writes land. -/
lemma runJobStep_char_ineligible (ce : String → Option String) (s : SchedState) (gi ji : Nat)
    (h1 : s.stopped = none) (h2 : (jobAt s.mj gi ji).status = ExecutionStatusPending)
    (h3 : ¬ (if (jobAt s.mj gi ji).dependencies.length > 0 then
        (jobDepLoop gi ji s.mj).2 = (jobAt s.mj gi ji).dependencies.length else True)) :
    runJobStep ce s gi ji =
      { mj := (jobDepLoop gi ji s.mj).1, created := s.created, stopped := none } := by
  unfold runJobStep
  rw [if_neg (by simp [h1]), if_pos h2, if_neg h3, h1]

/-- Job step on an eligible job that re-reads as running/failed/aborted after
the dependency loop: no create is attempted. -/
lemma runJobStep_char_recheck (ce : String → Option String) (s : SchedState) (gi ji : Nat)
    (h1 : s.stopped = none) (h2 : (jobAt s.mj gi ji).status = ExecutionStatusPending)
    (h3 : if (jobAt s.mj gi ji).dependencies.length > 0 then
        (jobDepLoop gi ji s.mj).2 = (jobAt s.mj gi ji).dependencies.length else True)
    (h4 : (jobAt (jobDepLoop gi ji s.mj).1 gi ji).status = ExecutionStatusRunning ∨
        (jobAt (jobDepLoop gi ji s.mj).1 gi ji).status = ExecutionStatusFailed ∨
        (jobAt (jobDepLoop gi ji s.mj).1 gi ji).status = ExecutionStatusAborted) :
    runJobStep ce s gi ji =
      { mj := (jobDepLoop gi ji s.mj).1, created := s.created, stopped := none } := by
  unfold runJobStep
  rw [if_neg (by simp [h1]), if_pos h2, if_pos h3, if_pos h4, h1]

/-- Job step on an eligible job whose create succeeds: the job is set running
with fan-out and the creation is recorded. -/
lemma runJobStep_char_ok (ce : String → Option String) (s : SchedState) (gi ji : Nat)
    (h1 : s.stopped = none) (h2 : (jobAt s.mj gi ji).status = ExecutionStatusPending)
    (h3 : if (jobAt s.mj gi ji).dependencies.length > 0 then
        (jobDepLoop gi ji s.mj).2 = (jobAt s.mj gi ji).dependencies.length else True)
    (h4 : ¬ ((jobAt (jobDepLoop gi ji s.mj).1 gi ji).status = ExecutionStatusRunning ∨
        (jobAt (jobDepLoop gi ji s.mj).1 gi ji).status = ExecutionStatusFailed ∨
        (jobAt (jobDepLoop gi ji s.mj).1 gi ji).status = ExecutionStatusAborted))
    (hce : ce (jobNameGenerator
        [s.mj.name, (groupAt s.mj gi).name, (jobAt s.mj gi ji).name]) = none) :
    runJobStep ce s gi ji =
      { mj := updateDependentJobs (setJobStatus (jobDepLoop gi ji s.mj).1 gi ji
            ExecutionStatusRunning) (jobAt s.mj gi ji).name ExecutionStatusRunning,
        created := s.created ++ [(gi, ji, jobNameGenerator
          [s.mj.name, (groupAt s.mj gi).name, (jobAt s.mj gi ji).name])],
        stopped := none } := by
  unfold runJobStep
  rw [if_neg (by simp [h1]), if_pos h2, if_pos h3, if_neg h4, hce]

/-- Job step on an eligible job whose create fails with an `"exists"`
message: the scheduler records the stop and the error handler changes no
status. -/
lemma runJobStep_char_exists (ce : String → Option String) (s : SchedState) (gi ji : Nat)
    (msg : String)
    (h1 : s.stopped = none) (h2 : (jobAt s.mj gi ji).status = ExecutionStatusPending)
    (h3 : if (jobAt s.mj gi ji).dependencies.length > 0 then
        (jobDepLoop gi ji s.mj).2 = (jobAt s.mj gi ji).dependencies.length else True)
    (h4 : ¬ ((jobAt (jobDepLoop gi ji s.mj).1 gi ji).status = ExecutionStatusRunning ∨
        (jobAt (jobDepLoop gi ji s.mj).1 gi ji).status = ExecutionStatusFailed ∨
        (jobAt (jobDepLoop gi ji s.mj).1 gi ji).status = ExecutionStatusAborted))
    (hce : ce (jobNameGenerator
        [s.mj.name, (groupAt s.mj gi).name, (jobAt s.mj gi ji).name]) = some msg)
    (hex : strContains msg "exists" = true) :
    runJobStep ce s gi ji =
      { mj := (jobDepLoop gi ji s.mj).1, created := s.created,
        stopped := some (gi, ji, msg) } := by
  unfold runJobStep
  rw [if_neg (by simp [h1]), if_pos h2, if_pos h3, if_neg h4, hce]
  dsimp only
  rw [if_pos hex]

/-- Job step on an eligible job whose create fails with a non-`"exists"`
message: job and group are marked failed with fan-out and the scheduler
records the stop. -/
lemma runJobStep_char_fail (ce : String → Option String) (s : SchedState) (gi ji : Nat)
    (msg : String)
    (h1 : s.stopped = none) (h2 : (jobAt s.mj gi ji).status = ExecutionStatusPending)
    (h3 : if (jobAt s.mj gi ji).dependencies.length > 0 then
        (jobDepLoop gi ji s.mj).2 = (jobAt s.mj gi ji).dependencies.length else True)
    (h4 : ¬ ((jobAt (jobDepLoop gi ji s.mj).1 gi ji).status = ExecutionStatusRunning ∨
        (jobAt (jobDepLoop gi ji s.mj).1 gi ji).status = ExecutionStatusFailed ∨
        (jobAt (jobDepLoop gi ji s.mj).1 gi ji).status = ExecutionStatusAborted))
    (hce : ce (jobNameGenerator
        [s.mj.name, (groupAt s.mj gi).name, (jobAt s.mj gi ji).name]) = some msg)
    (hex : strContains msg "exists" = false) :
    runJobStep ce s gi ji =
      { mj := updateDependentGroups (updateDependentJobs (setGroupStatus
            (setJobStatus (jobDepLoop gi ji s.mj).1 gi ji ExecutionStatusFailed) gi
            ExecutionStatusFailed) (jobAt s.mj gi ji).name ExecutionStatusFailed)
          (groupAt s.mj gi).name ExecutionStatusFailed,
        created := s.created, stopped := some (gi, ji, msg) } := by
  unfold runJobStep
  rw [if_neg (by simp [h1]), if_pos h2, if_pos h3, if_neg h4, hce]
  dsimp only
  rw [if_neg (by simp [hex])]

/-- A stopped scheduler state passes through the group step unchanged. -/
lemma runGroupStep_of_stopped (ce : String → Option String) (s : SchedState) (gi : Nat)
    (h : s.stopped ≠ none) : runGroupStep ce s gi = s := by
  unfold runGroupStep
  rw [if_pos (Option.isSome_iff_ne_none.mpr h)]

/-- Group step on a group all of whose jobs count succeeded: the group is
promoted to succeeded with fan-out. -/
lemma runGroupStep_char_promote (ce : String → Option String) (s : SchedState) (gi : Nat)
    (h1 : s.stopped = none)
    (h2 : (groupAt s.mj gi).jobs.countP (fun j => j.status == ExecutionStatusSucceeded) =
      (groupAt s.mj gi).jobs.length) :
    runGroupStep ce s gi =
      { mj := updateDependentGroups (setGroupStatus s.mj gi ExecutionStatusSucceeded)
          (groupAt s.mj gi).name ExecutionStatusSucceeded,
        created := s.created, stopped := none } := by
  unfold runGroupStep
  rw [if_neg (by simp [h1]), if_pos h2, h1]

/-- Group step on a group that is neither promotable nor pending/running:
only the terminal fan-out lands. -/
lemma runGroupStep_char_terminal (ce : String → Option String) (s : SchedState) (gi : Nat)
    (h1 : s.stopped = none)
    (h2 : ¬ (groupAt s.mj gi).jobs.countP (fun j => j.status == ExecutionStatusSucceeded) =
      (groupAt s.mj gi).jobs.length)
    (h3 : ¬ ((groupAt s.mj gi).status = ExecutionStatusPending ∨
      (groupAt s.mj gi).status = ExecutionStatusRunning)) :
    runGroupStep ce s gi =
      { mj := terminalFanOut s.mj gi, created := s.created, stopped := none } := by
  unfold runGroupStep
  rw [if_neg (by simp [h1]), if_neg h2, if_neg h3, h1]

/-- Group step on a pending/running group whose dependency loop did not count
every dependency succeeded: the job loop is not entered. -/
lemma runGroupStep_char_ineligible (ce : String → Option String) (s : SchedState) (gi : Nat)
    (h1 : s.stopped = none)
    (h2 : ¬ (groupAt s.mj gi).jobs.countP (fun j => j.status == ExecutionStatusSucceeded) =
      (groupAt s.mj gi).jobs.length)
    (h3 : (groupAt s.mj gi).status = ExecutionStatusPending ∨
      (groupAt s.mj gi).status = ExecutionStatusRunning)
    (h4 : ¬ (if (groupAt s.mj gi).dependencies.length > 0 then
        (groupDepLoop gi (terminalFanOut s.mj gi)).2 =
          (groupAt s.mj gi).dependencies.length else True)) :
    runGroupStep ce s gi =
      { mj := (groupDepLoop gi (terminalFanOut s.mj gi)).1, created := s.created,
        stopped := none } := by
  unfold runGroupStep
  rw [if_neg (by simp [h1]), if_neg h2, if_pos h3, if_neg h4, h1]

/-- Group step on an eligible pending/running group: the group is set running
with fan-out and the job loop runs over its jobs. -/
lemma runGroupStep_char_run (ce : String → Option String) (s : SchedState) (gi : Nat)
    (h1 : s.stopped = none)
    (h2 : ¬ (groupAt s.mj gi).jobs.countP (fun j => j.status == ExecutionStatusSucceeded) =
      (groupAt s.mj gi).jobs.length)
    (h3 : (groupAt s.mj gi).status = ExecutionStatusPending ∨
      (groupAt s.mj gi).status = ExecutionStatusRunning)
    (h4 : if (groupAt s.mj gi).dependencies.length > 0 then
        (groupDepLoop gi (terminalFanOut s.mj gi)).2 =
          (groupAt s.mj gi).dependencies.length else True) :
    runGroupStep ce s gi =
      runJobsAux ce gi
        (groupAt (updateDependentGroups
          (setGroupStatus (groupDepLoop gi (terminalFanOut s.mj gi)).1 gi
            ExecutionStatusRunning)
          (groupAt s.mj gi).name ExecutionStatusRunning) gi).jobs.length 0
        { mj := updateDependentGroups
            (setGroupStatus (groupDepLoop gi (terminalFanOut s.mj gi)).1 gi
              ExecutionStatusRunning)
            (groupAt s.mj gi).name ExecutionStatusRunning,
          created := s.created, stopped := none } := by
  unfold runGroupStep
  rw [if_neg (by simp [h1]), if_neg h2, if_pos h3, if_pos h4]

/-- One job step preserves the stop bookkeeping: before a stop the considered
group reads `running` and every recorded creation lies before the current
position; a stop records the erroring position together with the statuses the
error branch wrote. -/
lemma runJobStep_stop_inv (ce : String → Option String) (gi : Nat) (s : SchedState) (ji : Nat)
    (h1 : StopConsistent s)
    (h2 : s.stopped = none → groupStatus s.mj gi = ExecutionStatusRunning ∧
      ∀ e ∈ s.created, e.1 < gi ∨ (e.1 = gi ∧ e.2.1 < ji)) :
    StopConsistent (runJobStep ce s gi ji) ∧
    ((runJobStep ce s gi ji).stopped = none →
      groupStatus (runJobStep ce s gi ji).mj gi = ExecutionStatusRunning ∧
      ∀ e ∈ (runJobStep ce s gi ji).created, e.1 < gi ∨ (e.1 = gi ∧ e.2.1 < ji + 1)) := by
  by_cases hstop : s.stopped = none
  · obtain ⟨hrun, hbound⟩ := h2 hstop
    have hbound' : ∀ e ∈ s.created, e.1 < gi ∨ (e.1 = gi ∧ e.2.1 < ji + 1) :=
      fun e he => (hbound e he).imp id (fun hh => ⟨hh.1, Nat.lt_succ_of_lt hh.2⟩)
    by_cases hpend : (jobAt s.mj gi ji).status = ExecutionStatusPending
    · obtain ⟨hgi, hji⟩ := valid_of_jobStatus_pending s.mj gi ji hpend
      obtain ⟨f1, f2, f3, f4⟩ := jobDepLoop_frame gi ji s.mj
      by_cases h3 : (if (jobAt s.mj gi ji).dependencies.length > 0 then
          (jobDepLoop gi ji s.mj).2 = (jobAt s.mj gi ji).dependencies.length else True)
      · by_cases h4 : (jobAt (jobDepLoop gi ji s.mj).1 gi ji).status = ExecutionStatusRunning ∨
            (jobAt (jobDepLoop gi ji s.mj).1 gi ji).status = ExecutionStatusFailed ∨
            (jobAt (jobDepLoop gi ji s.mj).1 gi ji).status = ExecutionStatusAborted
        · rw [runJobStep_char_recheck ce s gi ji hstop hpend h3 h4]
          refine ⟨fun gi' ji' msg hc => absurd hc (by simp), fun _ => ⟨?_, hbound'⟩⟩
          exact (f3 gi).trans hrun
        · have hpend' : jobStatus (jobDepLoop gi ji s.mj).1 gi ji = ExecutionStatusPending := by
            rcases f4 gi ji with he | ⟨_, _, hab⟩
            · exact he.trans hpend
            · exact absurd (Or.inr (Or.inr hab)) h4
          rcases hoc : ce (jobNameGenerator
              [s.mj.name, (groupAt s.mj gi).name, (jobAt s.mj gi ji).name]) with _ | msg
          · rw [runJobStep_char_ok ce s gi ji hstop hpend h3 h4 hoc]
            refine ⟨fun gi' ji' msg hc => absurd hc (by simp), fun _ => ⟨?_, ?_⟩⟩
            · rw [groupStatus_updateDependentJobs, groupStatus_setJobStatus]
              exact (f3 gi).trans hrun
            · intro e he
              rcases List.mem_append.mp he with he | he
              · exact hbound' e he
              · rw [List.mem_singleton] at he
                subst he
                exact Or.inr ⟨rfl, Nat.lt_succ_self ji⟩
          · by_cases hex : strContains msg "exists" = true
            · rw [runJobStep_char_exists ce s gi ji msg hstop hpend h3 h4 hoc hex]
              refine ⟨?_, fun hn => absurd hn (by simp)⟩
              intro gi' ji' msg' hc
              simp only [Option.some.injEq, Prod.mk.injEq] at hc
              obtain ⟨hg', hj', hm'⟩ := hc
              subst hg'; subst hj'; subst hm'
              refine ⟨fun hf => ?_, fun _ => ⟨hpend', (f3 gi).trans hrun⟩, hbound⟩
              rw [hex] at hf
              exact absurd hf (by decide)
            · have hex' : strContains msg "exists" = false := by
                rcases Bool.eq_false_or_eq_true (strContains msg "exists") with h | h
                · exact absurd h hex
                · exact h
              rw [runJobStep_char_fail ce s gi ji msg hstop hpend h3 h4 hoc hex']
              have hgi' : gi < (jobDepLoop gi ji s.mj).1.groups.length := by
                rw [f1]; exact hgi
              have hji' : ji < (groupAt (jobDepLoop gi ji s.mj).1 gi).jobs.length := by
                rw [f2 gi]; exact hji
              refine ⟨?_, fun hn => absurd hn (by simp)⟩
              intro gi' ji' msg' hc
              simp only [Option.some.injEq, Prod.mk.injEq] at hc
              obtain ⟨hg', hj', hm'⟩ := hc
              subst hg'; subst hj'; subst hm'
              refine ⟨fun _ => ⟨?_, ?_⟩, fun ht => ?_, hbound⟩
              · rw [jobStatus_updateDependentGroups, jobStatus_updateDependentJobs,
                  jobStatus_setGroupStatus, jobStatus_setJobStatus]
                have hcond : gi = gi ∧ ji = ji ∧ gi < (jobDepLoop gi ji s.mj).1.groups.length ∧
                    ji < (groupAt (jobDepLoop gi ji s.mj).1 gi).jobs.length :=
                  ⟨rfl, rfl, hgi', hji'⟩
                rw [if_pos hcond]
              · rw [groupStatus_updateDependentGroups, groupStatus_updateDependentJobs,
                  groupStatus_setGroupStatus]
                have hcond : gi = gi ∧ gi < (setJobStatus (jobDepLoop gi ji s.mj).1 gi ji
                    ExecutionStatusFailed).groups.length :=
                  ⟨rfl, by rw [groupsLength_setJobStatus]; exact hgi'⟩
                rw [if_pos hcond]
              · rw [hex'] at ht
                exact absurd ht (by decide)
      · rw [runJobStep_char_ineligible ce s gi ji hstop hpend h3]
        refine ⟨fun gi' ji' msg hc => absurd hc (by simp), fun _ => ⟨?_, hbound'⟩⟩
        exact (f3 gi).trans hrun
    · rw [runJobStep_of_not_pending ce s gi ji hstop hpend]
      exact ⟨h1, fun _ => ⟨hrun, hbound'⟩⟩
  · rw [runJobStep_of_stopped ce s gi ji hstop]
    exact ⟨h1, fun hn => absurd hn hstop⟩

/-- One group step preserves the stop bookkeeping: before a stop every
recorded creation lies in an earlier group. -/
lemma runGroupStep_stop_inv (ce : String → Option String) (s : SchedState) (gi : Nat)
    (h1 : StopConsistent s)
    (h2 : s.stopped = none → ∀ e ∈ s.created, e.1 < gi) :
    StopConsistent (runGroupStep ce s gi) ∧
    ((runGroupStep ce s gi).stopped = none →
      ∀ e ∈ (runGroupStep ce s gi).created, e.1 < gi + 1) := by
  by_cases hstop : s.stopped = none
  · have hb := h2 hstop
    have hb' : ∀ e ∈ s.created, e.1 < gi + 1 := fun e he => Nat.lt_succ_of_lt (hb e he)
    by_cases h2p : (groupAt s.mj gi).jobs.countP
        (fun j => j.status == ExecutionStatusSucceeded) = (groupAt s.mj gi).jobs.length
    · rw [runGroupStep_char_promote ce s gi hstop h2p]
      exact ⟨fun gi' ji' msg hc => absurd hc (by simp), fun _ => hb'⟩
    · by_cases h3 : (groupAt s.mj gi).status = ExecutionStatusPending ∨
          (groupAt s.mj gi).status = ExecutionStatusRunning
      · by_cases h4 : (if (groupAt s.mj gi).dependencies.length > 0 then
            (groupDepLoop gi (terminalFanOut s.mj gi)).2 =
              (groupAt s.mj gi).dependencies.length else True)
        · rw [runGroupStep_char_run ce s gi hstop h2p h3 h4]
          have hgi : gi < s.mj.groups.length := valid_of_groupStatus_real s.mj gi h3
          obtain ⟨g1, _, _, _⟩ := groupDepLoop_frame gi (terminalFanOut s.mj gi)
          have hrunM : groupStatus (updateDependentGroups
              (setGroupStatus (groupDepLoop gi (terminalFanOut s.mj gi)).1 gi
                ExecutionStatusRunning)
              (groupAt s.mj gi).name ExecutionStatusRunning) gi = ExecutionStatusRunning := by
            rw [groupStatus_updateDependentGroups, groupStatus_setGroupStatus]
            have hcond : gi = gi ∧
                gi < (groupDepLoop gi (terminalFanOut s.mj gi)).1.groups.length :=
              ⟨rfl, by rw [g1, groupsLength_terminalFanOut]; exact hgi⟩
            rw [if_pos hcond]
          have key := runJobsAux_invariant ce gi
            (fun ji t => StopConsistent t ∧ (t.stopped = none →
              groupStatus t.mj gi = ExecutionStatusRunning ∧
              ∀ e ∈ t.created, e.1 < gi ∨ (e.1 = gi ∧ e.2.1 < ji)))
            (fun t ji ht => runJobStep_stop_inv ce gi t ji ht.1 ht.2)
            (groupAt (updateDependentGroups
              (setGroupStatus (groupDepLoop gi (terminalFanOut s.mj gi)).1 gi
                ExecutionStatusRunning)
              (groupAt s.mj gi).name ExecutionStatusRunning) gi).jobs.length 0
            { mj := updateDependentGroups
                (setGroupStatus (groupDepLoop gi (terminalFanOut s.mj gi)).1 gi
                  ExecutionStatusRunning)
                (groupAt s.mj gi).name ExecutionStatusRunning,
              created := s.created, stopped := none }
            ⟨fun gi' ji' msg hc => absurd hc (by simp),
             fun _ => ⟨hrunM, fun e he => Or.inl (hb e he)⟩⟩
          refine ⟨key.1, fun hn => ?_⟩
          intro e he
          rcases (key.2 hn).2 e he with h | h
          · exact Nat.lt_succ_of_lt h
          · have := h.1
            omega
        · rw [runGroupStep_char_ineligible ce s gi hstop h2p h3 h4]
          exact ⟨fun gi' ji' msg hc => absurd hc (by simp), fun _ => hb'⟩
      · rw [runGroupStep_char_terminal ce s gi hstop h2p h3]
        exact ⟨fun gi' ji' msg hc => absurd hc (by simp), fun _ => hb'⟩
  · rw [runGroupStep_of_stopped ce s gi hstop]
    exact ⟨h1, fun hn => absurd hn hstop⟩

/-- `SchedMono` is reflexive. -/
lemma schedMono_refl (m : ManagedJob) : SchedMono m m :=
  ⟨rfl, fun _ => rfl, fun _ _ => Or.inl rfl, fun _ => Or.inl rfl⟩

/-- `SchedMono` is transitive. -/
lemma schedMono_trans {a b c : ManagedJob} (h1 : SchedMono a b) (h2 : SchedMono b c) :
    SchedMono a c := by
  obtain ⟨l1, jl1, js1, gs1⟩ := h1
  obtain ⟨l2, jl2, js2, gs2⟩ := h2
  refine ⟨l2.trans l1, fun gi => (jl2 gi).trans (jl1 gi), ?_, ?_⟩
  · intro gi ji
    rcases js2 gi ji with he | ⟨hp, hns⟩
    · rcases js1 gi ji with he1 | ⟨hp1, hns1⟩
      · exact Or.inl (he.trans he1)
      · exact Or.inr ⟨hp1, fun hcs => hns1 (he.symm.trans hcs)⟩
    · rcases js1 gi ji with he1 | ⟨hp1, _⟩
      · exact Or.inr ⟨he1.symm.trans hp, hns⟩
      · exact Or.inr ⟨hp1, hns⟩
  · intro gi
    rcases gs2 gi with he | hp | hr | ⟨hsc, hall⟩
    · rcases gs1 gi with he1 | hp1 | hr1 | ⟨hsc1, hall1⟩
      · exact Or.inl (he.trans he1)
      · exact Or.inr (Or.inl hp1)
      · exact Or.inr (Or.inr (Or.inl hr1))
      · exact Or.inr (Or.inr (Or.inr ⟨he.trans hsc1, hall1⟩))
    · rcases gs1 gi with he1 | hp1 | hr1 | ⟨hsc1, _⟩
      · exact Or.inr (Or.inl (he1.symm.trans hp))
      · exact Or.inr (Or.inl hp1)
      · exact Or.inr (Or.inr (Or.inl hr1))
      · exact absurd (hsc1.symm.trans hp) (by decide)
    · rcases gs1 gi with he1 | hp1 | hr1 | ⟨hsc1, _⟩
      · exact Or.inr (Or.inr (Or.inl (he1.symm.trans hr)))
      · exact Or.inr (Or.inl hp1)
      · exact Or.inr (Or.inr (Or.inl hr1))
      · exact absurd (hsc1.symm.trans hr) (by decide)
    · refine Or.inr (Or.inr (Or.inr ⟨hsc, ?_⟩))
      intro ji hji
      have hji' : ji < (groupAt b gi).jobs.length := by rw [jl1 gi]; exact hji
      have hb := hall ji hji'
      rcases js1 gi ji with he1 | ⟨_, hns1⟩
      · exact he1.symm.trans hb
      · exact absurd hb hns1

/-- One job step only moves statuses the `SchedMono` way, and leaves the
considered group reading `running` as long as no stop is recorded. -/
lemma runJobStep_mono (ce : String → Option String) (gi : Nat) (s : SchedState) (ji : Nat)
    (h2 : s.stopped = none → groupStatus s.mj gi = ExecutionStatusRunning) :
    SchedMono s.mj (runJobStep ce s gi ji).mj ∧
    ((runJobStep ce s gi ji).stopped = none →
      groupStatus (runJobStep ce s gi ji).mj gi = ExecutionStatusRunning) := by
  by_cases hstop : s.stopped = none
  · have hrun := h2 hstop
    by_cases hpend : (jobAt s.mj gi ji).status = ExecutionStatusPending
    · obtain ⟨hgi, hji⟩ := valid_of_jobStatus_pending s.mj gi ji hpend
      obtain ⟨f1, f2, f3, f4⟩ := jobDepLoop_frame gi ji s.mj
      have hmloop : SchedMono s.mj (jobDepLoop gi ji s.mj).1 := by
        refine ⟨f1, f2, ?_, fun g' => Or.inl (f3 g')⟩
        intro g' j'
        rcases f4 g' j' with he | ⟨hg', hj', hab⟩
        · exact Or.inl he
        · subst hg'; subst hj'
          exact Or.inr ⟨hpend, by rw [hab]; decide⟩
      by_cases h3 : (if (jobAt s.mj gi ji).dependencies.length > 0 then
          (jobDepLoop gi ji s.mj).2 = (jobAt s.mj gi ji).dependencies.length else True)
      · by_cases h4 : (jobAt (jobDepLoop gi ji s.mj).1 gi ji).status = ExecutionStatusRunning ∨
            (jobAt (jobDepLoop gi ji s.mj).1 gi ji).status = ExecutionStatusFailed ∨
            (jobAt (jobDepLoop gi ji s.mj).1 gi ji).status = ExecutionStatusAborted
        · rw [runJobStep_char_recheck ce s gi ji hstop hpend h3 h4]
          exact ⟨hmloop, fun _ => (f3 gi).trans hrun⟩
        · have hpend' : jobStatus (jobDepLoop gi ji s.mj).1 gi ji = ExecutionStatusPending := by
            rcases f4 gi ji with he | ⟨_, _, hab⟩
            · exact he.trans hpend
            · exact absurd (Or.inr (Or.inr hab)) h4
          rcases hoc : ce (jobNameGenerator
              [s.mj.name, (groupAt s.mj gi).name, (jobAt s.mj gi ji).name]) with _ | msg
          · rw [runJobStep_char_ok ce s gi ji hstop hpend h3 h4 hoc]
            have hm2 : SchedMono (jobDepLoop gi ji s.mj).1
                (updateDependentJobs (setJobStatus (jobDepLoop gi ji s.mj).1 gi ji
                  ExecutionStatusRunning) (jobAt s.mj gi ji).name ExecutionStatusRunning) := by
              refine ⟨?_, ?_, ?_, ?_⟩
              · rw [groupsLength_updateDependentJobs, groupsLength_setJobStatus]
              · intro g'
                rw [jobsLength_updateDependentJobs, jobsLength_setJobStatus]
              · intro g' j'
                rw [jobStatus_updateDependentJobs, jobStatus_setJobStatus]
                split
                · next hcond =>
                  obtain ⟨hg', hj', _, _⟩ := hcond
                  subst hg'; subst hj'
                  exact Or.inr ⟨hpend', by decide⟩
                · exact Or.inl rfl
              · intro g'
                rw [groupStatus_updateDependentJobs, groupStatus_setJobStatus]
                exact Or.inl rfl
            refine ⟨schedMono_trans hmloop hm2, fun _ => ?_⟩
            rw [groupStatus_updateDependentJobs, groupStatus_setJobStatus]
            exact (f3 gi).trans hrun
          · by_cases hex : strContains msg "exists" = true
            · rw [runJobStep_char_exists ce s gi ji msg hstop hpend h3 h4 hoc hex]
              exact ⟨hmloop, fun hn => absurd hn (by simp)⟩
            · have hex' : strContains msg "exists" = false := by
                rcases Bool.eq_false_or_eq_true (strContains msg "exists") with h | h
                · exact absurd h hex
                · exact h
              rw [runJobStep_char_fail ce s gi ji msg hstop hpend h3 h4 hoc hex']
              have hm2 : SchedMono (jobDepLoop gi ji s.mj).1
                  (updateDependentGroups (updateDependentJobs (setGroupStatus
                    (setJobStatus (jobDepLoop gi ji s.mj).1 gi ji ExecutionStatusFailed) gi
                    ExecutionStatusFailed) (jobAt s.mj gi ji).name ExecutionStatusFailed)
                  (groupAt s.mj gi).name ExecutionStatusFailed) := by
                refine ⟨?_, ?_, ?_, ?_⟩
                · rw [groupsLength_updateDependentGroups, groupsLength_updateDependentJobs,
                    groupsLength_setGroupStatus, groupsLength_setJobStatus]
                · intro g'
                  rw [jobsLength_updateDependentGroups, jobsLength_updateDependentJobs,
                    jobsLength_setGroupStatus, jobsLength_setJobStatus]
                · intro g' j'
                  rw [jobStatus_updateDependentGroups, jobStatus_updateDependentJobs,
                    jobStatus_setGroupStatus, jobStatus_setJobStatus]
                  split
                  · next hcond =>
                    obtain ⟨hg', hj', _, _⟩ := hcond
                    subst hg'; subst hj'
                    exact Or.inr ⟨hpend', by decide⟩
                  · exact Or.inl rfl
                · intro g'
                  rw [groupStatus_updateDependentGroups, groupStatus_updateDependentJobs,
                    groupStatus_setGroupStatus, groupStatus_setJobStatus]
                  split
                  · next hcond =>
                    obtain ⟨hg', _⟩ := hcond
                    subst hg'
                    exact Or.inr (Or.inr (Or.inl ((f3 gi).trans hrun)))
                  · exact Or.inl rfl
              exact ⟨schedMono_trans hmloop hm2, fun hn => absurd hn (by simp)⟩
      · rw [runJobStep_char_ineligible ce s gi ji hstop hpend h3]
        exact ⟨hmloop, fun _ => (f3 gi).trans hrun⟩
    · rw [runJobStep_of_not_pending ce s gi ji hstop hpend]
      exact ⟨schedMono_refl _, fun _ => hrun⟩
  · rw [runJobStep_of_stopped ce s gi ji hstop]
    exact ⟨schedMono_refl _, fun hn => absurd hn hstop⟩

/-- One group step only moves statuses the `SchedMono` way. -/
lemma runGroupStep_mono (ce : String → Option String) (s : SchedState) (gi : Nat) :
    SchedMono s.mj (runGroupStep ce s gi).mj := by
  by_cases hstop : s.stopped = none
  · by_cases h2p : (groupAt s.mj gi).jobs.countP
        (fun j => j.status == ExecutionStatusSucceeded) = (groupAt s.mj gi).jobs.length
    · rw [runGroupStep_char_promote ce s gi hstop h2p]
      refine ⟨?_, ?_, ?_, ?_⟩
      · rw [groupsLength_updateDependentGroups, groupsLength_setGroupStatus]
      · intro g'
        rw [jobsLength_updateDependentGroups, jobsLength_setGroupStatus]
      · intro g' j'
        rw [jobStatus_updateDependentGroups, jobStatus_setGroupStatus]
        exact Or.inl rfl
      · intro g'
        rw [groupStatus_updateDependentGroups, groupStatus_setGroupStatus]
        split
        · next hcond =>
          obtain ⟨hg', _⟩ := hcond
          subst hg'
          refine Or.inr (Or.inr (Or.inr ⟨rfl, ?_⟩))
          intro ji hji
          have hmem : (groupAt s.mj gi).jobs.getD ji default ∈ (groupAt s.mj gi).jobs := by
            rw [getD_eq_getElem_of_lt _ _ hji]
            exact List.getElem_mem hji
          have hP := List.countP_eq_length.mp h2p _ hmem
          have hP2 : (((groupAt s.mj gi).jobs.getD ji default).status ==
              ExecutionStatusSucceeded) = true := hP
          exact eq_of_beq hP2
        · exact Or.inl rfl
    · by_cases h3 : (groupAt s.mj gi).status = ExecutionStatusPending ∨
          (groupAt s.mj gi).status = ExecutionStatusRunning
      · have hgi : gi < s.mj.groups.length := valid_of_groupStatus_real s.mj gi h3
        have hmT : SchedMono s.mj (terminalFanOut s.mj gi) :=
          ⟨groupsLength_terminalFanOut s.mj gi, fun g' => jobsLength_terminalFanOut s.mj gi g',
           fun g' j' => Or.inl (jobStatus_terminalFanOut s.mj gi g' j'),
           fun g' => Or.inl (groupStatus_terminalFanOut s.mj gi g')⟩
        obtain ⟨g1, g2, g3, g4⟩ := groupDepLoop_frame gi (terminalFanOut s.mj gi)
        have hmD : SchedMono s.mj (groupDepLoop gi (terminalFanOut s.mj gi)).1 := by
          refine schedMono_trans hmT ⟨g1, g2, fun g' j' => Or.inl (g3 g' j'), ?_⟩
          intro g'
          rcases g4 g' with he | ⟨hg', _⟩
          · exact Or.inl he
          · subst hg'
            rcases h3 with h3 | h3
            · exact Or.inr (Or.inl (by rw [groupStatus_terminalFanOut]; exact h3))
            · exact Or.inr (Or.inr (Or.inl (by rw [groupStatus_terminalFanOut]; exact h3)))
        by_cases h4 : (if (groupAt s.mj gi).dependencies.length > 0 then
            (groupDepLoop gi (terminalFanOut s.mj gi)).2 =
              (groupAt s.mj gi).dependencies.length else True)
        · rw [runGroupStep_char_run ce s gi hstop h2p h3 h4]
          have hgiD : gi < (groupDepLoop gi (terminalFanOut s.mj gi)).1.groups.length := by
            rw [g1, groupsLength_terminalFanOut]
            exact hgi
          have hmM : SchedMono s.mj (updateDependentGroups
              (setGroupStatus (groupDepLoop gi (terminalFanOut s.mj gi)).1 gi
                ExecutionStatusRunning)
              (groupAt s.mj gi).name ExecutionStatusRunning) := by
            obtain ⟨d1, d2, d3, _⟩ := hmD
            refine ⟨?_, ?_, ?_, ?_⟩
            · rw [groupsLength_updateDependentGroups, groupsLength_setGroupStatus]
              exact d1
            · intro g'
              rw [jobsLength_updateDependentGroups, jobsLength_setGroupStatus]
              exact d2 g'
            · intro g' j'
              rw [jobStatus_updateDependentGroups, jobStatus_setGroupStatus]
              exact d3 g' j'
            · intro g'
              by_cases hg' : gi = g'
              · subst hg'
                rcases h3 with h3 | h3
                · exact Or.inr (Or.inl h3)
                · exact Or.inr (Or.inr (Or.inl h3))
              · rw [groupStatus_updateDependentGroups, groupStatus_setGroupStatus,
                  if_neg (fun hc => hg' hc.1)]
                rcases g4 g' with he | ⟨hg'', _⟩
                · exact Or.inl (he.trans (groupStatus_terminalFanOut s.mj gi g'))
                · exact absurd hg''.symm hg'
          have hrunM : groupStatus (updateDependentGroups
              (setGroupStatus (groupDepLoop gi (terminalFanOut s.mj gi)).1 gi
                ExecutionStatusRunning)
              (groupAt s.mj gi).name ExecutionStatusRunning) gi = ExecutionStatusRunning := by
            rw [groupStatus_updateDependentGroups, groupStatus_setGroupStatus]
            have hcond : gi = gi ∧
                gi < (groupDepLoop gi (terminalFanOut s.mj gi)).1.groups.length :=
              ⟨rfl, hgiD⟩
            rw [if_pos hcond]
          have key := runJobsAux_invariant ce gi
            (fun _ t => SchedMono s.mj t.mj ∧ (t.stopped = none →
              groupStatus t.mj gi = ExecutionStatusRunning))
            (fun t ji ht => ⟨schedMono_trans ht.1 (runJobStep_mono ce gi t ji ht.2).1,
              (runJobStep_mono ce gi t ji ht.2).2⟩)
            (groupAt (updateDependentGroups
              (setGroupStatus (groupDepLoop gi (terminalFanOut s.mj gi)).1 gi
                ExecutionStatusRunning)
              (groupAt s.mj gi).name ExecutionStatusRunning) gi).jobs.length 0
            { mj := updateDependentGroups
                (setGroupStatus (groupDepLoop gi (terminalFanOut s.mj gi)).1 gi
                  ExecutionStatusRunning)
                (groupAt s.mj gi).name ExecutionStatusRunning,
              created := s.created, stopped := none }
            ⟨hmM, fun _ => hrunM⟩
          exact key.1
        · rw [runGroupStep_char_ineligible ce s gi hstop h2p h3 h4]
          exact hmD
      · rw [runGroupStep_char_terminal ce s gi hstop h2p h3]
        exact ⟨groupsLength_terminalFanOut s.mj gi,
          fun g' => jobsLength_terminalFanOut s.mj gi g',
          fun g' j' => Or.inl (jobStatus_terminalFanOut s.mj gi g' j'),
          fun g' => Or.inl (groupStatus_terminalFanOut s.mj gi g')⟩
  · rw [runGroupStep_of_stopped ce s gi hstop]
    exact schedMono_refl _

/-! ## Claim theorems -/

/-- C1: the spec requires that after `checkOverallStatus` a workflow with a
failed (or aborted) group ends the pass with status `failed`.  The code as
written violates this: the loop assigns `failed`, but the final `if`/`else`
unconditionally overwrites the status with `succeeded` or `running`, so on a
workflow whose only group is failed the pass ends with `running`.  The
repository's own test acknowledges this overwrite, while the specification
flags the branch as likely-buggy and mandates that `failed` be sticky — the
code, not the claim, is in the wrong. -/
theorem checkOverallStatus_failed_group_runs :
    groupStatus failedGroupWorkflow 0 = ExecutionStatusFailed ∧
    (checkOverallStatus failedGroupWorkflow).status = ExecutionStatusRunning ∧
    (checkOverallStatus failedGroupWorkflow).status ≠ ExecutionStatusFailed := by
  decide

/-- C2 counterexample: the projector can give a terminal job a different
status.  `succeededJobWorkflow`'s only job is `succeeded`; its child ran a
failing pod before the successful retry, so the observed counters are
`Succeeded = 1, Failed = 1`.  The projector's `else if` chain skips the
succeeded branch (the job is already succeeded) and then matches the failed
branch, demoting the succeeded job to `failed`. -/
theorem checkRunningJobsStatus_demotes_succeeded_job :
    jobStatus succeededJobWorkflow 0 0 = ExecutionStatusSucceeded ∧
    conflictedChild.succeeded > 0 ∧
    jobStatus (checkRunningJobsStatus (some [conflictedChild]) succeededJobWorkflow) 0 0 =
      ExecutionStatusFailed := by
  decide

/-- C3 counterexample: a per-child delete error does not block finalizer
removal.  With the finalizer present, a successful child listing and a delete
oracle that fails on every child, `handleDeletion` still removes the
finalizer in the same reconcile, because `deleteChildJobs` logs the per-child
error, continues, and returns `nil`. -/
theorem handleDeletion_removes_finalizer_despite_delete_error :
    deleteBoom "c1" = some "forbidden" ∧
    (handleDeletion true (Except.ok ["c1"]) deleteBoom none).finalizerRemoved = true := by
  decide

/-- C3 as amended: per-child delete failures are logged and cleanup
continues, but the finalizer is removed in that same reconcile anyway (and
every listed child still receives a delete attempt); only a failure of the
initial `List` call blocks the finalizer removal. -/
theorem handleDeletion_amended (children : List String) (del : String → Option String)
    (c : String) (hc : c ∈ children) (_hdel : del c ≠ none) :
    (handleDeletion true (Except.ok children) del none).finalizerRemoved = true ∧
    c ∈ (handleDeletion true (Except.ok children) del none).deleteAttempts ∧
    ∀ e : String, (handleDeletion true (Except.error e) del none).finalizerRemoved = false := by
  refine ⟨rfl, ?_, fun e => rfl⟩
  show c ∈ (children.map (fun x => (x, del x))).map Prod.fst
  simpa [List.map_map, Function.comp] using hc

/-- Witness for `handleDeletion_amended` at a concrete cleanup state. -/
theorem handleDeletion_amended_w :
    ("c1" ∈ ["c1"] ∧ deleteBoom "c1" ≠ none) ∧
    ((handleDeletion true (Except.ok ["c1"]) deleteBoom none).finalizerRemoved = true ∧
     "c1" ∈ (handleDeletion true (Except.ok ["c1"]) deleteBoom none).deleteAttempts ∧
     ∀ e : String, (handleDeletion true (Except.error e) deleteBoom none).finalizerRemoved = false) :=
  ⟨⟨by decide, by decide⟩, handleDeletion_amended ["c1"] deleteBoom "c1" (by decide) (by decide)⟩

/-- C4 counterexample: planning performs no validation.  On a workflow with a
duplicate group name (`g` twice), `generateDependencyTree` completes without
any error and the immediately following scheduler pass launches both jobs and
moves the group statuses to `running` — contradicting "planning fails with a
validation error, statuses are left unchanged, and the reconcile returns
without launching any job". -/
theorem generateDependencyTree_no_validation_cex :
    dupNamesWorkflow.groups.map (fun g => g.name) = ["g", "g"] ∧
    (runPendingJobs createOk (generateDependencyTree dupNamesWorkflow)).created =
      [(0, 0, "w-g-a"), (1, 0, "w-g-b")] ∧
    groupStatus (runPendingJobs createOk (generateDependencyTree dupNamesWorkflow)).mj 0 =
      ExecutionStatusRunning := by
  decide

/-- C4 as amended: planning cannot fail — `generateDependencyTree` is a total
function with no validation (the name/shape constraints live only in the CRD
schema); it leaves the workflow status, every group status and every job
status unchanged on every input (also malformed ones), and the reconcile then
proceeds to scheduling as usual. -/
theorem generateDependencyTree_preserves_statuses (mj : ManagedJob) :
    (generateDependencyTree mj).status = mj.status ∧
    (generateDependencyTree mj).groups.map (fun g => g.status) =
      mj.groups.map (fun g => g.status) ∧
    (generateDependencyTree mj).groups.map (fun g => g.jobs.map (fun j => j.status)) =
      mj.groups.map (fun g => g.jobs.map (fun j => j.status)) :=
  ⟨rfl, planGroups_statuses mj.name mj.params mj.groups,
    planGroups_jobStatuses mj.name mj.params mj.groups⟩

/-- C5 counterexample: in the parameter-inheritance scenario the compiled env
list is not `[POO, FEE, FOO]`.  `generateDependencyTree` calls
`compileParameters(spec.Params, group.Params, job.Params)` and the merge
appends in argument order, so the workflow layer comes first. -/
theorem compileParameters_env_order_cex :
    (jobAt (generateDependencyTree paramsWorkflow) 0 0).compiledParams.env ≠
      [⟨"POO", "paz"⟩, ⟨"FEE", "bee"⟩, ⟨"FOO", "bar"⟩] := by
  decide

/-- C5 as amended: with workflow env `FOO=bar`, group env `FEE=bee` and job
env `POO=paz`, the job's compiled env contains exactly the three entries in
the order `[FOO, FEE, POO]` — earlier (outer) layer first, in the
`(workflow, group, job)` argument order of the `compileParameters` call. -/
theorem compileParameters_env_order :
    (jobAt (generateDependencyTree paramsWorkflow) 0 0).compiledParams.env =
      [⟨"FOO", "bar"⟩, ⟨"FEE", "bee"⟩, ⟨"POO", "paz"⟩] := by
  decide

/-- C6 counterexample: a dependency name can appear twice in a job's list
after planning.  The planner only refuses to append a duplicate itself; a
duplicate already present in the user's explicit dependency list survives
planning verbatim. -/
theorem planning_keeps_duplicate_explicit_dependencies :
    (jobAt (generateDependencyTree dupDepsWorkflow) 0 0).dependencies.map (fun d => d.name) =
      ["d", "d"] ∧
    ¬ ((jobAt (generateDependencyTree dupDepsWorkflow) 0 0).dependencies.map
        (fun d => d.name)).Nodup := by
  decide

/-- C6 as amended: for a group with duplicate-free job names and
duplicate-free explicit dependency lists, planning gives every sequential
(`parallel = false`) job a dependency entry named after the synthesised child
name of each prior sibling; a parallel job gains no implicit dependency;
explicit dependencies are preserved; and the planner itself never introduces
a duplicate name (the job's and the group's post-planning lists are
duplicate-free whenever the pre-planning lists were). -/
theorem planning_implicit_dependencies (mj : ManagedJob) (gi ji : Nat)
    (hgi : gi < mj.groups.length)
    (hji : ji < (groupAt mj gi).jobs.length)
    (hnames : ((groupAt mj gi).jobs.map (fun j => j.name)).Nodup)
    (hjdeps : ((jobAt mj gi ji).dependencies.map (fun d => d.name)).Nodup)
    (hgdeps : ((groupAt mj gi).dependencies.map (fun d => d.name)).Nodup) :
    ((jobAt mj gi ji).parallel = true →
      (jobAt (generateDependencyTree mj) gi ji).dependencies =
        (jobAt mj gi ji).dependencies) ∧
    (∀ d ∈ (jobAt mj gi ji).dependencies,
      d ∈ (jobAt (generateDependencyTree mj) gi ji).dependencies) ∧
    ((jobAt mj gi ji).parallel = false → ∀ k, k < ji →
      ∃ d ∈ (jobAt (generateDependencyTree mj) gi ji).dependencies,
        d.name = jobNameGenerator [mj.name, (groupAt mj gi).name, (jobAt mj gi k).name]) ∧
    ((jobAt (generateDependencyTree mj) gi ji).dependencies.map (fun d => d.name)).Nodup ∧
    ((groupAt (generateDependencyTree mj) gi).dependencies.map (fun d => d.name)).Nodup := by
  have hgroups : (generateDependencyTree mj).groups = planGroups mj.name mj.params mj.groups :=
    rfl
  have hgAt : groupAt (generateDependencyTree mj) gi =
      planGroup mj.name mj.params
        (takeWhileNe (groupAt mj gi).name ((mj.groups.take (gi + 1)).map (fun q => q.name)))
        (groupAt mj gi) := by
    show (generateDependencyTree mj).groups.getD gi default = _
    rw [hgroups]
    exact planGroups_getD mj.name mj.params mj.groups gi hgi
  have hjobsEq : (groupAt (generateDependencyTree mj) gi).jobs =
      planJobs mj.name (groupAt mj gi).name mj.params (groupAt mj gi).params
        (groupAt mj gi).jobs := by
    rw [hgAt, planGroup_jobs]
  have hjiN : ji < ((groupAt mj gi).jobs.map (fun j => j.name)).length := by
    simpa using hji
  have hpriors :
      takeWhileNe ((groupAt mj gi).jobs.getD ji default).name
        (((groupAt mj gi).jobs.take (ji + 1)).map (fun q => q.name)) =
      ((groupAt mj gi).jobs.map (fun j => j.name)).take ji := by
    have h1 : (((groupAt mj gi).jobs.take (ji + 1)).map (fun q => q.name)) =
        ((groupAt mj gi).jobs.map (fun j => j.name)).take (ji + 1) :=
      List.map_take _ _ _
    have h2 : ((groupAt mj gi).jobs.map (fun j => j.name)).take (ji + 1) =
        ((groupAt mj gi).jobs.map (fun j => j.name)).take ji ++
          [((groupAt mj gi).jobs.map (fun j => j.name))[ji]] := by
      rw [List.take_succ, List.getElem?_eq_getElem hjiN]
      rfl
    have h3 : ((groupAt mj gi).jobs.getD ji default).name =
        ((groupAt mj gi).jobs.map (fun j => j.name))[ji] := by
      rw [getD_eq_getElem_of_lt _ _ hji, List.getElem_map]
    rw [h1, h2, h3]
    exact takeWhileNe_append_self _ _
      (nodup_take_ne ((groupAt mj gi).jobs.map (fun j => j.name)) hnames ji hjiN)
  have hjAtEq : jobAt (generateDependencyTree mj) gi ji =
      planJob mj.name (groupAt mj gi).name mj.params (groupAt mj gi).params
        (((groupAt mj gi).jobs.map (fun j => j.name)).take ji) (jobAt mj gi ji) := by
    show (groupAt (generateDependencyTree mj) gi).jobs.getD ji default = _
    rw [hjobsEq, planJobs_getD _ _ _ _ _ ji hji, hpriors]
    rfl
  have hdepsEq : (jobAt (generateDependencyTree mj) gi ji).dependencies =
      if (jobAt mj gi ji).parallel then (jobAt mj gi ji).dependencies
      else addDependencies (jobAt mj gi ji).dependencies
        ((((groupAt mj gi).jobs.map (fun j => j.name)).take ji).map
          (fun p => jobNameGenerator [mj.name, (groupAt mj gi).name, p])) := by
    rw [hjAtEq, planJob_dependencies]
  have hgdepsEq : (groupAt (generateDependencyTree mj) gi).dependencies =
      if (groupAt mj gi).parallel then (groupAt mj gi).dependencies
      else addDependencies (groupAt mj gi).dependencies
        (takeWhileNe (groupAt mj gi).name ((mj.groups.take (gi + 1)).map (fun q => q.name))) := by
    rw [hgAt, planGroup_dependencies]
  refine ⟨?_, ?_, ?_, ?_, ?_⟩
  · intro hp
    rw [hdepsEq, if_pos hp]
  · intro d hd
    rw [hdepsEq]
    split
    · exact hd
    · exact mem_addDependencies _ _ _ hd
  · intro hp k hk
    rw [hdepsEq, if_neg (by simp [hp])]
    have hkji : k < (groupAt mj gi).jobs.length := by omega
    have hlen : k < ((((groupAt mj gi).jobs.map (fun j => j.name)).take ji)).length := by
      simp only [List.length_take, List.length_map]
      omega
    have hgetTake : ((((groupAt mj gi).jobs.map (fun j => j.name)).take ji))[k] =
        ((groupAt mj gi).jobs.map (fun j => j.name))[k] :=
      List.getElem_take _
    have hmem : (jobAt mj gi k).name ∈
        (((groupAt mj gi).jobs.map (fun j => j.name)).take ji) := by
      apply List.mem_iff_getElem.mpr
      refine ⟨k, hlen, ?_⟩
      rw [hgetTake, List.getElem_map, ← getD_eq_getElem_of_lt _ default hkji]
      rfl
    exact exists_name_addDependencies _ _ _ (List.mem_map_of_mem _ hmem)
  · rw [hdepsEq]
    split
    · exact hjdeps
    · exact nodup_addDependencies _ _ hjdeps
  · rw [hgdepsEq]
    split
    · exact hgdeps
    · exact nodup_addDependencies _ _ hgdeps

/-- Witness for `planning_implicit_dependencies`: one group with a parallel
job `a` followed by a sequential job `b`; after planning, `b` depends on
`w-g-a`. -/
theorem planning_implicit_dependencies_w :
    (0 < seqJobsWorkflow.groups.length ∧ 1 < (groupAt seqJobsWorkflow 0).jobs.length ∧
     ((groupAt seqJobsWorkflow 0).jobs.map (fun j => j.name)).Nodup ∧
     ((jobAt seqJobsWorkflow 0 1).dependencies.map (fun d => d.name)).Nodup ∧
     ((groupAt seqJobsWorkflow 0).dependencies.map (fun d => d.name)).Nodup) ∧
    (((jobAt seqJobsWorkflow 0 1).parallel = true →
      (jobAt (generateDependencyTree seqJobsWorkflow) 0 1).dependencies =
        (jobAt seqJobsWorkflow 0 1).dependencies) ∧
    (∀ d ∈ (jobAt seqJobsWorkflow 0 1).dependencies,
      d ∈ (jobAt (generateDependencyTree seqJobsWorkflow) 0 1).dependencies) ∧
    ((jobAt seqJobsWorkflow 0 1).parallel = false → ∀ k, k < 1 →
      ∃ d ∈ (jobAt (generateDependencyTree seqJobsWorkflow) 0 1).dependencies,
        d.name = jobNameGenerator [seqJobsWorkflow.name, (groupAt seqJobsWorkflow 0).name,
          (jobAt seqJobsWorkflow 0 k).name]) ∧
    ((jobAt (generateDependencyTree seqJobsWorkflow) 0 1).dependencies.map
      (fun d => d.name)).Nodup ∧
    ((groupAt (generateDependencyTree seqJobsWorkflow) 0).dependencies.map
      (fun d => d.name)).Nodup) :=
  ⟨⟨by decide, by decide, by decide, by decide, by decide⟩,
   planning_implicit_dependencies seqJobsWorkflow 0 1 (by decide) (by decide) (by decide)
     (by decide) (by decide)⟩

/-- C7 counterexample: on a create error whose message contains `"exists"`,
the group's status does change that tick.  Starting from a pending group with
one pending job, the eligibility step sets the group `running` before the
create is attempted; the `exists` error then leaves job and group statuses
alone, so the tick ends with the job still `pending` but the group moved from
`pending` to `running`. -/
theorem runPendingJobs_exists_error_group_status_changes :
    groupStatus pendingSingleJobWorkflow 0 = ExecutionStatusPending ∧
    jobStatus (runPendingJobs createExistsErr pendingSingleJobWorkflow).mj 0 0 =
      ExecutionStatusPending ∧
    groupStatus (runPendingJobs createExistsErr pendingSingleJobWorkflow).mj 0 =
      ExecutionStatusRunning := by
  decide

/-- C8: `compileParameters` is deterministic (equal layers give equal
results) and idempotent: re-feeding the merged result as a single layer
reproduces it. -/
theorem compileParameters_idempotent (a b c : ManagedJobParameters) :
    compileParameters [compileParameters [a, b, c]] = compileParameters [a, b, c] ∧
    ∀ a2 b2 c2, a = a2 → b = b2 → c = c2 →
      compileParameters [a, b, c] = compileParameters [a2, b2, c2] := by
  constructor
  · exact mergeParams_emptyParams_left (compileParameters [a, b, c])
  · intro a2 b2 c2 h1 h2 h3
    rw [h1, h2, h3]

/-- Witness for `compileParameters_idempotent` at the inheritance layers. -/
theorem compileParameters_idempotent_w :
    compileParameters [compileParameters [fooParams, feeParams, pooParams]] =
      compileParameters [fooParams, feeParams, pooParams] ∧
    compileParameters [fooParams, feeParams, pooParams] =
      compileParameters [fooParams, feeParams, pooParams] :=
  ⟨(compileParameters_idempotent fooParams feeParams pooParams).1,
   (compileParameters_idempotent fooParams feeParams pooParams).2 fooParams feeParams pooParams
     rfl rfl rfl⟩

/-- C9: the backoff limit on the created execution is absent for a zero retry
budget, `1` for budgets outside `[0, 100]`, and the budget itself inside
`[1, 100]`. -/
theorem executeJob_backoffLimit (mj : ManagedJob) (g : ManagedJobGroup)
    (j : ManagedJobDefinition) :
    (mj.retries = 0 → (executeJobManifest mj g j).backoffLimit = none) ∧
    ((mj.retries < 0 ∨ mj.retries > 100) → (executeJobManifest mj g j).backoffLimit = some 1) ∧
    (1 ≤ mj.retries → mj.retries ≤ 100 →
      (executeJobManifest mj g j).backoffLimit = some mj.retries) := by
  have hb : (executeJobManifest mj g j).backoffLimit = convertRetries mj.retries := rfl
  refine ⟨?_, ?_, ?_⟩
  · intro h
    rw [hb, convertRetries, if_pos h]
  · intro h
    have h0 : ¬ mj.retries = 0 := by omega
    rw [hb, convertRetries, if_neg h0, if_pos h]
  · intro h1 h2
    have h0 : ¬ mj.retries = 0 := by omega
    have h100 : ¬ (mj.retries < 0 ∨ mj.retries > 100) := by omega
    rw [hb, convertRetries, if_neg h0, if_neg h100]

/-- C10: a single scheduler pass marks every group whose job list is empty as
`succeeded` without creating any external execution, and on a workflow all of
whose groups have empty job lists the aggregator then reports the overall
status `succeeded`, even though no job ever ran. -/
theorem runPendingJobs_empty_groups (ce : String → Option String) (mj : ManagedJob)
    (h : ∀ g ∈ mj.groups, g.jobs = []) :
    (runPendingJobs ce mj).created = [] ∧
    (∀ g ∈ (runPendingJobs ce mj).mj.groups, g.status = ExecutionStatusSucceeded) ∧
    (checkOverallStatus (runPendingJobs ce mj).mj).status = ExecutionStatusSucceeded := by
  have hP : ∀ k, (groupAt mj k).jobs = [] := by
    intro k
    by_cases hk : k < mj.groups.length
    · have hmem : groupAt mj k ∈ mj.groups := by
        unfold groupAt
        rw [getD_eq_getElem_of_lt mj.groups default hk]
        exact List.getElem_mem hk
      exact h _ hmem
    · show (mj.groups.getD k default).jobs = []
      rw [List.getD_eq_getElem?_getD, List.getElem?_eq_none (Nat.le_of_not_lt hk)]
      rfl
  have hstep : ∀ (s : SchedState) (gi : Nat),
      (s.stopped = none ∧ s.created = [] ∧
        s.mj.groups.length = mj.groups.length ∧
        (∀ k, (groupAt s.mj k).jobs = []) ∧
        (∀ k, k < gi → k < s.mj.groups.length →
          groupStatus s.mj k = ExecutionStatusSucceeded)) →
      ((runGroupStep ce s gi).stopped = none ∧ (runGroupStep ce s gi).created = [] ∧
        (runGroupStep ce s gi).mj.groups.length = mj.groups.length ∧
        (∀ k, (groupAt (runGroupStep ce s gi).mj k).jobs = []) ∧
        (∀ k, k < gi + 1 → k < (runGroupStep ce s gi).mj.groups.length →
          groupStatus (runGroupStep ce s gi).mj k = ExecutionStatusSucceeded)) := by
    intro s gi hs
    obtain ⟨h1, h2, h3, h4, h5⟩ := hs
    rw [runGroupStep_emptyJobs ce s gi h1 (h4 gi)]
    refine ⟨rfl, h2, ?_, ?_, ?_⟩
    · show (updateDependentGroups (setGroupStatus s.mj gi ExecutionStatusSucceeded)
        (groupAt s.mj gi).name ExecutionStatusSucceeded).groups.length = mj.groups.length
      rw [groupsLength_updateDependentGroups, groupsLength_setGroupStatus]
      exact h3
    · intro k
      show (groupAt (updateDependentGroups (setGroupStatus s.mj gi ExecutionStatusSucceeded)
        (groupAt s.mj gi).name ExecutionStatusSucceeded) k).jobs = []
      rw [groupAt_updateDependentGroups]
      show (groupAt (setGroupStatus s.mj gi ExecutionStatusSucceeded) k).jobs = []
      rw [groupAt_setGroupStatus]
      split
      · exact h4 gi
      · exact h4 k
    · intro k hk hklen
      have hklen' : k < s.mj.groups.length := by
        have hl : (updateDependentGroups (setGroupStatus s.mj gi ExecutionStatusSucceeded)
            (groupAt s.mj gi).name ExecutionStatusSucceeded).groups.length =
            s.mj.groups.length := by
          rw [groupsLength_updateDependentGroups, groupsLength_setGroupStatus]
        rw [hl] at hklen
        exact hklen
      show groupStatus (updateDependentGroups (setGroupStatus s.mj gi ExecutionStatusSucceeded)
        (groupAt s.mj gi).name ExecutionStatusSucceeded) k = ExecutionStatusSucceeded
      rw [groupStatus_updateDependentGroups, groupStatus_setGroupStatus]
      by_cases hgk : gi = k ∧ gi < s.mj.groups.length
      · rw [if_pos hgk]
      · rw [if_neg hgk]
        have hkgi : k < gi := by
          rcases Nat.lt_or_ge k gi with hlt | hge
          · exact hlt
          · exfalso
            have : gi = k := by omega
            exact hgk ⟨this, this ▸ hklen'⟩
        exact h5 k hkgi hklen'
  have hinv := runGroupsAux_invariant ce
    (fun gi s =>
      s.stopped = none ∧ s.created = [] ∧
      s.mj.groups.length = mj.groups.length ∧
      (∀ k, (groupAt s.mj k).jobs = []) ∧
      (∀ k, k < gi → k < s.mj.groups.length →
        groupStatus s.mj k = ExecutionStatusSucceeded))
    hstep mj.groups.length 0 { mj := mj, created := [], stopped := none }
    ⟨rfl, rfl, rfl, hP, fun k hk _ => absurd hk (Nat.not_lt_zero k)⟩
  obtain ⟨hstop, hcre, hlen, hjobs, hstat⟩ := hinv
  have hallsucc : ∀ g ∈ (runPendingJobs ce mj).mj.groups,
      g.status = ExecutionStatusSucceeded := by
    intro g hg
    obtain ⟨k, hk, hgk⟩ := List.mem_iff_getElem.mp hg
    have hkl : k < mj.groups.length := by
      rw [← hlen]
      exact hk
    have hst := hstat k (by omega) hk
    have hgs : groupStatus (runPendingJobs ce mj).mj k =
        ((runPendingJobs ce mj).mj.groups)[k].status := by
      unfold groupStatus groupAt
      rw [getD_eq_getElem_of_lt _ default hk]
    rw [← hgk, ← hgs]
    exact hst
  exact ⟨hcre, hallsucc, checkOverallStatus_all_succeeded _ hallsucc⟩

/-- Witness for `runPendingJobs_empty_groups` on a two-empty-group workflow. -/
theorem runPendingJobs_empty_groups_w :
    (∀ g ∈ emptyGroupsWorkflow.groups, g.jobs = []) ∧
    ((runPendingJobs createOk emptyGroupsWorkflow).created = [] ∧
     (∀ g ∈ (runPendingJobs createOk emptyGroupsWorkflow).mj.groups,
       g.status = ExecutionStatusSucceeded) ∧
     (checkOverallStatus (runPendingJobs createOk emptyGroupsWorkflow).mj).status =
       ExecutionStatusSucceeded) :=
  ⟨by decide, runPendingJobs_empty_groups createOk emptyGroupsWorkflow (by decide)⟩

/-- Witness for `executeJob_backoffLimit` at a budget of 5. -/
theorem executeJob_backoffLimit_w :
    (1 : Int) ≤ retriesWorkflow.retries ∧ retriesWorkflow.retries ≤ 100 ∧
    (executeJobManifest retriesWorkflow (mkGroup "g" false [] [] ExecutionStatusPending)
      (mkJob "j" false ExecutionStatusPending [])).backoffLimit = some retriesWorkflow.retries :=
  ⟨by decide, by decide,
   (executeJob_backoffLimit retriesWorkflow (mkGroup "g" false [] [] ExecutionStatusPending)
     (mkJob "j" false ExecutionStatusPending [])).2.2 (by decide) (by decide)⟩

/-- C7 (amended): whenever the scheduler stops on a create error, a
non-`"exists"` message leaves the erroring job and its group `failed`, an
`"exists"` message leaves the job `pending` but the group carrying the
`running` status assigned earlier in the same tick, and in both cases no
further job is launched that tick (every recorded creation strictly precedes
the erroring position). -/
theorem runPendingJobs_create_error_behavior (ce : String → Option String) (mj : ManagedJob) :
    StopConsistent (runPendingJobs ce mj) := by
  unfold runPendingJobs
  have key := runGroupsAux_invariant ce
    (fun gi t => StopConsistent t ∧ (t.stopped = none → ∀ e ∈ t.created, e.1 < gi))
    (fun t gi ht => runGroupStep_stop_inv ce t gi ht.1 ht.2)
    mj.groups.length 0 { mj := mj, created := [], stopped := none }
    ⟨fun gi' ji' msg hc => absurd hc (by simp), fun _ => by simp⟩
  exact key.1

/-- Witness for `runPendingJobs_create_error_behavior`: a fresh single-job
workflow against an oracle failing with `"forbidden"` stops at `(0, 0)` with
the job and its group `failed`. -/
theorem runPendingJobs_create_error_behavior_w :
    (runPendingJobs createForbiddenErr pendingSingleJobWorkflow).stopped =
      some (0, 0, "forbidden") ∧
    jobStatus (runPendingJobs createForbiddenErr pendingSingleJobWorkflow).mj 0 0 =
      ExecutionStatusFailed ∧
    groupStatus (runPendingJobs createForbiddenErr pendingSingleJobWorkflow).mj 0 =
      ExecutionStatusFailed :=
  ⟨by decide,
   ((runPendingJobs_create_error_behavior createForbiddenErr pendingSingleJobWorkflow 0 0
      "forbidden" (by decide)).1 (by decide)).1,
   ((runPendingJobs_create_error_behavior createForbiddenErr pendingSingleJobWorkflow 0 0
      "forbidden" (by decide)).1 (by decide)).2⟩

/-- C2 (amended, scheduling step): one scheduler pass never gives a terminal
job a different status, and changes a terminal group status only by promoting
the group to `succeeded` when every one of its jobs already reads
`succeeded`. -/
theorem runPendingJobs_no_terminal_demotion (ce : String → Option String) (mj : ManagedJob)
    (gi ji : Nat) :
    (TerminalStatus (jobStatus mj gi ji) →
      jobStatus (runPendingJobs ce mj).mj gi ji = jobStatus mj gi ji) ∧
    (TerminalStatus (groupStatus mj gi) →
      groupStatus (runPendingJobs ce mj).mj gi = groupStatus mj gi ∨
        (groupStatus (runPendingJobs ce mj).mj gi = ExecutionStatusSucceeded ∧
          ∀ ji' < (groupAt mj gi).jobs.length,
            jobStatus mj gi ji' = ExecutionStatusSucceeded)) := by
  have h : SchedMono mj (runPendingJobs ce mj).mj := by
    unfold runPendingJobs
    exact runGroupsAux_invariant ce (fun _ t => SchedMono mj t.mj)
      (fun t gi' ht => schedMono_trans ht (runGroupStep_mono ce t gi'))
      mj.groups.length 0 { mj := mj, created := [], stopped := none }
      (schedMono_refl mj)
  obtain ⟨_, _, hjs, hgs⟩ := h
  constructor
  · intro ht
    have ht' : jobStatus mj gi ji = ExecutionStatusSucceeded ∨
        jobStatus mj gi ji = ExecutionStatusFailed ∨
        jobStatus mj gi ji = ExecutionStatusAborted := ht
    rcases hjs gi ji with he | ⟨hp, _⟩
    · exact he
    · rcases ht' with h' | h' | h' <;> exact absurd (hp.symm.trans h') (by decide)
  · intro ht
    have ht' : groupStatus mj gi = ExecutionStatusSucceeded ∨
        groupStatus mj gi = ExecutionStatusFailed ∨
        groupStatus mj gi = ExecutionStatusAborted := ht
    rcases hgs gi with he | hp | hr | hsucc
    · exact Or.inl he
    · rcases ht' with h' | h' | h' <;> exact absurd (hp.symm.trans h') (by decide)
    · rcases ht' with h' | h' | h' <;> exact absurd (hr.symm.trans h') (by decide)
    · exact Or.inr hsucc

/-- Witness for `runPendingJobs_no_terminal_demotion`: the failed job of
`failedGroupWorkflow` keeps its `failed` status across a scheduler pass. -/
theorem runPendingJobs_no_terminal_demotion_w :
    TerminalStatus (jobStatus failedGroupWorkflow 0 0) ∧
    jobStatus (runPendingJobs createOk failedGroupWorkflow).mj 0 0 =
      jobStatus failedGroupWorkflow 0 0 :=
  ⟨Or.inr (Or.inl (by decide)),
   (runPendingJobs_no_terminal_demotion createOk failedGroupWorkflow 0 0).1
     (Or.inr (Or.inl (by decide)))⟩

end JobsManager
